import Mathlib

/-!
# Zero Gravity — verification of the stamp parser / formatter / validators

A shallow embedding of the Zero Gravity stamp core (`parser` module and
`embedder` module) into Lean 4.  JavaScript strings are modelled as
`List Char`; JavaScript objects (field maps) are modelled as association
lists with JS assignment semantics (`setKey`: overwrite in place if the
key exists, otherwise append).  JS values that occur in this code base are
modelled by `JSVal`: strings, arrays of strings, and `null`.
-/

namespace ZeroGravity

/-- JS strings, modelled character by character. -/
abbrev Str := List Char

/-- Coerce a Lean string literal to the `Str` model. -/
def ofS (s : String) : Str := s.data

/-- The JS values this code base stores in field maps: strings, arrays of
strings, and `null` (used for explicit `null` entries in full JSON). -/
inductive JSVal where
  | str : Str → JSVal
  | arr : List Str → JSVal
  | jnull : JSVal
deriving DecidableEq, Repr

/-- JS truthiness for the values of `JSVal`:  a string is truthy iff
non-empty, an array is always truthy (even `[]`), `null` is falsy. -/
def JSVal.truthy : JSVal → Bool
  | .str s => !s.isEmpty
  | .arr _ => true
  | .jnull => false

/-- Truthiness of `obj[key]` where the key may be absent (`undefined`). -/
def truthyO : Option JSVal → Bool
  | some v => v.truthy
  | none => false

/-- JS `ToString` coercion as used in template literals: arrays join with
a comma, `null` prints `null`. -/
def JSVal.jsToString : JSVal → Str
  | .str s => s
  | .arr l => (l.intersperse (ofS ",")).flatten
  | .jnull => ofS "null"

/-- A JS object, as an insertion-ordered association list. -/
abbrev ObjMap := List (Str × JSVal)

/-- Property lookup `obj[k]`; `none` models `undefined`. -/
def get (m : ObjMap) (k : Str) : Option JSVal :=
  (m.find? (fun p => p.1 = k)).map (·.2)

/-- Property assignment `obj[k] = v`: overwrite in place when the key is
present, append otherwise (JS insertion-order semantics). -/
def setKey (m : ObjMap) (k : Str) (v : JSVal) : ObjMap :=
  if m.any (fun p => p.1 = k) then
    m.map (fun p => if p.1 = k then (k, v) else p)
  else
    m ++ [(k, v)]

/-! ## JS string primitives used by the source -/

/-- `String.prototype.trim`. -/
def jsTrim (s : Str) : Str :=
  ((s.dropWhile Char.isWhitespace).reverse.dropWhile Char.isWhitespace).reverse

/-- `String.prototype.startsWith`. -/
def jsStartsWith (pre s : Str) : Bool := pre.isPrefixOf s

/-- `String.prototype.indexOf` for a single character
(`none` models the JS result `-1`). -/
def jsIndexOf (c : Char) : Str → Option Nat
  | [] => none
  | a :: rest => if a = c then some 0 else (jsIndexOf c rest).map (· + 1)

/-- `String.prototype.split('\n')`. -/
def splitLines : Str → List Str
  | [] => [[]]
  | c :: rest =>
    match splitLines rest with
    | [] => [[c]]
    | h :: t => if c = '\n' then [] :: h :: t else (c :: h) :: t

/-- `Array.prototype.join('\n')`. -/
def joinLines : List Str → Str
  | [] => []
  | [l] => l
  | l :: ls => l ++ '\n' :: joinLines ls

/-- `Array.prototype.join(sep)` for an arbitrary separator. -/
def joinSep (sep : Str) (ls : List Str) : Str :=
  (ls.intersperse sep).flatten

/-- First index at which `pat` occurs as a contiguous substring of `s`
(the leftmost regex match position for a literal pattern). -/
def firstOcc (pat : Str) : Str → Option Nat
  | [] => if pat.isEmpty then some 0 else none
  | s@(_ :: rest) =>
    if pat.isPrefixOf s then some 0 else (firstOcc pat rest).map (· + 1)

/-! ## The parser module -/

/-- `---BEGIN ZERO GRAVITY---`. -/
def beginMark : Str := ofS "---BEGIN ZERO GRAVITY---"

/-- `---END ZERO GRAVITY---`. -/
def endMark : Str := ofS "---END ZERO GRAVITY---"

/-- `STAMP_REQUIRED_FIELDS`. -/
def STAMP_REQUIRED_FIELDS : List Str :=
  [ofS "encoding", ofS "version", ofS "title", ofS "intent", ofS "indexes"]

/-- `JSON_REQUIRED_FIELDS`. -/
def JSON_REQUIRED_FIELDS : List Str :=
  [ofS "id", ofS "intent", ofS "relevance", ofS "claims"]

/-- `VALID_INTENTS`. -/
def VALID_INTENTS : List Str :=
  [ofS "proposal", ofS "critique", ofS "synthesis", ofS "report", ofS "design"]

/-- `VALID_STANCES`. -/
def VALID_STANCES : List Str :=
  [ofS "speculative", ofS "empirical", ofS "prescriptive", ofS "exploratory"]

/-- The extracted block: the exact matched substring and the body between
the delimiters, as in the source's `{ raw, body }`. -/
structure Block where
  raw : Str
  body : Str
deriving DecidableEq, Repr

/-- `extractBlock`, the semantics of matching
`/---BEGIN ZERO GRAVITY---\n([\s\S]*?)\n---END ZERO GRAVITY---/`:
the match starts at the first occurrence of the BEGIN marker followed by a
newline that has, somewhere later, a newline followed by the END marker;
the lazy body takes the earliest such END. -/
def extractBlock (text : Str) : Option Block :=
  match firstOcc (beginMark ++ ['\n']) text with
  | none => none
  | some i =>
    let after := text.drop (i + (beginMark ++ ['\n']).length)
    match firstOcc ('\n' :: endMark) after with
    | none => none
    | some j =>
      some { raw := (text.drop i).take ((beginMark ++ ['\n']).length + j + ('\n' :: endMark).length)
             body := after.take j }

/-- `stripQuotes`. -/
def stripQuotes (value : Str) : Str :=
  let trimmed := jsTrim value
  if (jsStartsWith (ofS "\"") trimmed && trimmed.getLast? = some '"') ||
     (jsStartsWith (ofS "'") trimmed && trimmed.getLast? = some '\'') then
    (trimmed.take (trimmed.length - 1)).drop 1
  else trimmed

/-- The inner `while` loop of `parseBlock` that collects `- item` lines:
returns the collected items and the remaining lines. -/
def takeItems : List Str → (List Str × List Str)
  | [] => ([], [])
  | line :: rest =>
    let nextTrimmed := jsTrim line
    if jsStartsWith (ofS "- ") nextTrimmed then
      let p := takeItems rest
      (stripQuotes (nextTrimmed.drop 2) :: p.1, p.2)
    else ([], line :: rest)

theorem takeItems_rest_length : ∀ ls : List Str, (takeItems ls).2.length ≤ ls.length := by
  intro ls
  induction ls with
  | nil => simp [takeItems]
  | cons l rest ih =>
    simp only [takeItems]
    split
    · exact Nat.le_trans ih (Nat.le_succ _)
    · exact Nat.le_refl _

/-- The main loop of `parseBlock`, over the list of lines, carrying the
`fields` object being built. -/
def parseLinesAux (fields : ObjMap) (lines : List Str) : ObjMap :=
  match lines with
  | [] => fields
  | line :: rest =>
    let trimmed := jsTrim line
    if trimmed.isEmpty then parseLinesAux fields rest
    else
      match jsIndexOf ':' trimmed with
      | none => parseLinesAux fields rest
      | some colonIdx =>
        let key := jsTrim (trimmed.take colonIdx)
        let afterColon := jsTrim (trimmed.drop (colonIdx + 1))
        if key.isEmpty then parseLinesAux fields rest
        else if afterColon.isEmpty then
          let p := takeItems rest
          if p.1.isEmpty then parseLinesAux fields p.2
          else parseLinesAux (setKey fields key (JSVal.arr p.1)) p.2
        else parseLinesAux (setKey fields key (JSVal.str (stripQuotes afterColon))) rest
termination_by lines.length
decreasing_by
  all_goals simp_wf
  all_goals exact Nat.lt_succ_of_le (takeItems_rest_length _)

/-- `parseBlock`. -/
def parseBlock (body : Str) : ObjMap :=
  parseLinesAux [] (splitLines body)

/-- A fuel-indexed structural mirror of `parseLinesAux` (the fuel only has
to dominate the number of lines); being structurally recursive it reduces
inside the kernel, which `parseLinesAux`, defined by well-founded
recursion, does not.  `parseLinesFuel_eq` below proves it computes
`parseLinesAux` whenever the fuel suffices. -/
def parseLinesFuel : Nat → ObjMap → List Str → ObjMap
  | _, fields, [] => fields
  | 0, fields, _ :: _ => fields
  | fuel + 1, fields, line :: rest =>
    let trimmed := jsTrim line
    if trimmed.isEmpty then parseLinesFuel fuel fields rest
    else
      match jsIndexOf ':' trimmed with
      | none => parseLinesFuel fuel fields rest
      | some colonIdx =>
        let key := jsTrim (trimmed.take colonIdx)
        let afterColon := jsTrim (trimmed.drop (colonIdx + 1))
        if key.isEmpty then parseLinesFuel fuel fields rest
        else if afterColon.isEmpty then
          let p := takeItems rest
          if p.1.isEmpty then parseLinesFuel fuel fields p.2
          else parseLinesFuel fuel (setKey fields key (JSVal.arr p.1)) p.2
        else parseLinesFuel fuel (setKey fields key (JSVal.str (stripQuotes afterColon))) rest

/-- The `{ valid, errors }` result of both validators. -/
structure ValidationResult where
  valid : Bool
  errors : List Str
deriving DecidableEq, Repr

/-- `jsToString` lifted to a possibly-undefined property. -/
def jsToStringO : Option JSVal → Str
  | some v => v.jsToString
  | none => ofS "undefined"

/-- One iteration of the required-field loop in `validateStamp`. -/
def stampFieldErrs (fields : ObjMap) (field : Str) : List Str :=
  if !truthyO (get fields field) then
    [ofS "Missing required stamp field: " ++ field]
  else
    match get fields field with
    | some (JSVal.str s) =>
      if (jsTrim s).isEmpty then [ofS "Required stamp field is empty: " ++ field] else []
    | some (JSVal.arr l) =>
      if l.isEmpty then [ofS "Required stamp field is empty: " ++ field] else []
    | _ => []

/-- The `Unexpected encoding` check of `validateStamp`. -/
def encodingErrs (fields : ObjMap) : List Str :=
  match get fields (ofS "encoding") with
  | some v =>
    if v.truthy && v ≠ JSVal.str (ofS "zero-gravity") then
      [ofS "Unexpected encoding: \"" ++ v.jsToString ++ ofS "\" (expected \"zero-gravity\")"]
    else []
  | none => []

/-- `validateStamp`. -/
def validateStamp (fields : ObjMap) : ValidationResult :=
  let errors := STAMP_REQUIRED_FIELDS.flatMap (stampFieldErrs fields) ++ encodingErrs fields
  { valid := errors.isEmpty, errors }

/-- One iteration of the required-field loop in `validateFullJSON`
(`undefined` and `null` are "missing"; a blank string or empty array is
"empty"). -/
def jsonFieldErrs (json : ObjMap) (field : Str) : List Str :=
  match get json field with
  | none => [ofS "Missing required field: " ++ field]
  | some JSVal.jnull => [ofS "Missing required field: " ++ field]
  | some (JSVal.str s) =>
    if (jsTrim s).isEmpty then [ofS "Required field is empty: " ++ field] else []
  | some (JSVal.arr l) =>
    if l.isEmpty then [ofS "Required field is empty: " ++ field] else []

/-- `Array.prototype.includes` against a list of strings (JS `===`). -/
def includesVal (l : List Str) : JSVal → Bool
  | JSVal.str s => l.contains s
  | _ => false

/-- The controlled-vocabulary check for `intent` in `validateFullJSON`. -/
def intentErrs (json : ObjMap) : List Str :=
  match get json (ofS "intent") with
  | some v =>
    if v.truthy && !includesVal VALID_INTENTS v then
      [ofS "Invalid intent value: \"" ++ v.jsToString ++ ofS "\". Must be one of: " ++
        joinSep (ofS ", ") VALID_INTENTS]
    else []
  | none => []

/-- The controlled-vocabulary check for `stance` in `validateFullJSON`. -/
def stanceErrs (json : ObjMap) : List Str :=
  match get json (ofS "stance") with
  | some v =>
    if v.truthy && !includesVal VALID_STANCES v then
      [ofS "Invalid stance value: \"" ++ v.jsToString ++ ofS "\". Must be one of: " ++
        joinSep (ofS ", ") VALID_STANCES]
    else []
  | none => []

/-- The "too few" claims message, `found` interpolated in decimal. -/
def tooFewClaimsMsg (n : Nat) : Str :=
  ofS "claims should have at least 3 items (found " ++ ofS (toString n) ++ ofS ")"

/-- The "too many" claims message, `found` interpolated in decimal. -/
def tooManyClaimsMsg (n : Nat) : Str :=
  ofS "claims should have at most 7 items (found " ++ ofS (toString n) ++ ofS ")"

/-- The claims-cardinality check of `validateFullJSON`. -/
def claimsErrs (json : ObjMap) : List Str :=
  match get json (ofS "claims") with
  | some (JSVal.arr c) =>
    if c.length < 3 then [tooFewClaimsMsg c.length]
    else if c.length > 7 then [tooManyClaimsMsg c.length]
    else []
  | _ => []

/-- A character allowed by the regex class `[a-z0-9-]`. -/
def isIdChar (c : Char) : Bool :=
  ('a' ≤ c && c ≤ 'z') || ('0' ≤ c && c ≤ '9') || c = '-'

/-- `/^[a-z0-9-]+$/.test(s)`. -/
def testIdPattern (s : Str) : Bool :=
  !s.isEmpty && s.all isIdChar

/-- The id-pattern error message. -/
def idErrMsg (v : JSVal) : Str :=
  ofS "id must be lowercase alphanumeric with hyphens: \"" ++ v.jsToString ++ ofS "\""

/-- The id-pattern check of `validateFullJSON` (the regex `.test` coerces
its argument to a string). -/
def idErrs (json : ObjMap) : List Str :=
  match get json (ofS "id") with
  | some v => if v.truthy && !testIdPattern v.jsToString then [idErrMsg v] else []
  | none => []

/-- `validateFullJSON`. -/
def validateFullJSON (json : ObjMap) : ValidationResult :=
  let errors := JSON_REQUIRED_FIELDS.flatMap (jsonFieldErrs json) ++
    intentErrs json ++ stanceErrs json ++ claimsErrs json ++ idErrs json
  { valid := errors.isEmpty, errors }

/-! ## `formatStamp` and `parseZG` -/

/-- A rendered scalar line `key: "value"`. -/
def scalarLine (key v : Str) : Str := key ++ ':' :: ' ' :: '"' :: v ++ ['"']

/-- A rendered list item line `  - "item"`. -/
def itemLine (item : Str) : Str := ofS "  - \"" ++ item ++ ofS "\""

/-- The `lines` array built by `formatStamp` before joining. -/
def formatStampLines (fields : ObjMap) (version : Str) : List Str :=
  [beginMark,
   ofS "encoding: \"zero-gravity\"",
   scalarLine (ofS "version") version]
  ++ (if truthyO (get fields (ofS "title")) then
        [scalarLine (ofS "title") (jsToStringO (get fields (ofS "title")))] else [])
  ++ (if truthyO (get fields (ofS "intent")) then
        [scalarLine (ofS "intent") (jsToStringO (get fields (ofS "intent")))] else [])
  ++ (match get fields (ofS "indexes") with
      | some (JSVal.arr l) =>
        if l.length > 0 then (ofS "indexes:") :: l.map itemLine else []
      | _ => [])
  ++ [endMark]

/-- `formatStamp` (`version` defaults to `'0.1'` at call sites). -/
def formatStamp (fields : ObjMap) (version : Str) : Str :=
  joinLines (formatStampLines fields version)

/-- The result record of `parseZG`. -/
structure ZGResult where
  version : JSVal
  fields : ObjMap
  raw : Str
  validation : ValidationResult
deriving DecidableEq, Repr

/-- `parseZG`: extract, parse, validate (`version: fields.version || '0.1'`). -/
def parseZG (text : Str) : Option ZGResult :=
  match extractBlock text with
  | none => none
  | some extracted =>
    let fields := parseBlock extracted.body
    let validation := validateStamp fields
    some { version :=
             if truthyO (get fields (ofS "version")) then
               (get fields (ofS "version")).getD JSVal.jnull
             else JSVal.str (ofS "0.1"),
           fields := fields, raw := extracted.raw, validation := validation }

/-! ## The embedder module -/

/-- `fieldsToEmbeddingText`: the canonical text joined from the parts
pushed for `title`, `intent`, `relevance`, `indexes`, `claims`, `tags`,
`relations`, in that order, each only when its guard holds. -/
def fieldsToEmbeddingText (fields : ObjMap) : Str :=
  let parts : List Str :=
    (if truthyO (get fields (ofS "title")) then
      [ofS "Title: " ++ jsToStringO (get fields (ofS "title"))] else [])
    ++ (if truthyO (get fields (ofS "intent")) then
      [ofS "Intent: " ++ jsToStringO (get fields (ofS "intent"))] else [])
    ++ (if truthyO (get fields (ofS "relevance")) then
      [ofS "Relevance: " ++ jsToStringO (get fields (ofS "relevance"))] else [])
    ++ (match get fields (ofS "indexes") with
      | some (JSVal.arr l) => [ofS "Indexes: " ++ joinSep (ofS "; ") l]
      | _ => [])
    ++ (match get fields (ofS "claims") with
      | some (JSVal.arr l) => [ofS "Claims: " ++ joinSep (ofS "; ") l]
      | _ => [])
    ++ (match get fields (ofS "tags") with
      | some (JSVal.arr l) => [ofS "Tags: " ++ joinSep (ofS ", ") l]
      | _ => [])
    ++ (match get fields (ofS "relations") with
      | some (JSVal.arr l) => [ofS "Relations: " ++ joinSep (ofS ", ") l]
      | _ => [])
  joinLines parts

/-- `buildFullJSON`: the object literal
`{encoding, version, ...fields, created_at}` evaluated left to right with
JS assignment semantics, then `embedding` attached when truthy.  The
`new Date().toISOString()` read is modelled by the explicit `now`
parameter. -/
def buildFullJSON (fields : ObjMap) (embedding : JSVal) (now : Str) : ObjMap :=
  let result := setKey
    (fields.foldl (fun m p => setKey m p.1 p.2)
      [(ofS "encoding", JSVal.str (ofS "zero-gravity")),
       (ofS "version", JSVal.str (ofS "0.1"))])
    (ofS "created_at") (JSVal.str now)
  if embedding.truthy then setKey result (ofS "embedding") embedding else result

/-! ## Basic lemmas about the object-map model -/

theorem find?_map_overwrite (k k' : Str) (v : JSVal) (m : ObjMap) :
    (m.map (fun p => if p.1 = k then (k, v) else p)).find? (fun p => p.1 = k') =
      if k' = k then ((m.find? (fun p => p.1 = k)).map (fun _ => (k, v)))
      else m.find? (fun p => p.1 = k') := by
  induction m with
  | nil => by_cases hk : k' = k <;> simp [hk]
  | cons p rest ih =>
    by_cases hp : p.1 = k
    · by_cases hk : k' = k
      · subst hk
        simp [hp, ih]
      · have h1 : ¬(k = k') := fun h => hk h.symm
        have h2 : ¬(p.1 = k') := by rw [hp]; exact h1
        simp [hp, hk, h1, h2, ih]
    · by_cases hk : k' = k
      · subst hk
        simp [hp, ih]
      · by_cases hpk : p.1 = k'
        · simp [hp, hk, hpk]
        · simp [hp, hk, hpk, ih]

theorem get_setKey (m : ObjMap) (k : Str) (v : JSVal) (k' : Str) :
    get (setKey m k v) k' = if k' = k then some v else get m k' := by
  unfold setKey get
  by_cases hany : m.any (fun p => p.1 = k)
  · rw [if_pos hany, find?_map_overwrite]
    by_cases hk : k' = k
    · rw [if_pos hk, if_pos hk]
      have hsome : (m.find? (fun p => p.1 = k)).isSome := by
        rw [List.find?_isSome]
        obtain ⟨p, hp, hpk⟩ := List.any_eq_true.mp hany
        exact ⟨p, hp, hpk⟩
      obtain ⟨q, hq⟩ := Option.isSome_iff_exists.mp hsome
      rw [hq, Option.map_some', Option.map_some']
    · rw [if_neg hk, if_neg hk]
  · rw [if_neg hany, List.find?_append]
    simp only [List.any_eq_true, not_exists, not_and] at hany
    by_cases hk : k' = k
    · subst hk
      have hnone : m.find? (fun p => (p.1 = k' : Bool)) = none := by
        rw [List.find?_eq_none]
        exact hany
      rw [hnone, if_pos rfl]
      simp [List.find?]
    · have h1 : List.find? (fun p => (p.1 = k' : Bool)) [(k, v)] = none := by
        rw [List.find?_eq_none]
        intro x hx
        simp only [List.mem_singleton] at hx
        subst hx
        intro hc
        simp only [decide_eq_true_eq] at hc
        exact hk hc.symm
      rw [h1, if_neg hk]
      simp

theorem get_nil (k : Str) : get ([] : ObjMap) k = none := rfl

/-! ## C2: determinism of the canonical embedding text -/

/-- C2.  Determinism of canonical text: `fieldsToEmbeddingText` depends only
on which keys are bound to which values, not on the field map's own key
order — two maps binding the same keys to the same values (in any insertion
order) give byte-identical output, whose lines appear in the fixed order
Title, Intent, Relevance, Indexes, Claims, Tags, Relations by construction. -/
theorem fieldsToEmbeddingText_deterministic (m1 m2 : ObjMap)
    (h : ∀ k, get m1 k = get m2 k) :
    fieldsToEmbeddingText m1 = fieldsToEmbeddingText m2 := by
  unfold fieldsToEmbeddingText
  rw [h (ofS "title"), h (ofS "intent"), h (ofS "relevance"), h (ofS "indexes"),
    h (ofS "claims"), h (ofS "tags"), h (ofS "relations")]

/-- Witness for C2: two concrete maps with the same bindings inserted in
opposite orders produce identical canonical text. -/
theorem fieldsToEmbeddingText_deterministic_witness :
    fieldsToEmbeddingText
        [(ofS "title", JSVal.str (ofS "T")), (ofS "claims", JSVal.arr [ofS "a", ofS "b"])] =
      fieldsToEmbeddingText
        [(ofS "claims", JSVal.arr [ofS "a", ofS "b"]), (ofS "title", JSVal.str (ofS "T"))] := by
  apply fieldsToEmbeddingText_deterministic
  intro k
  by_cases h1 : k = ofS "title"
  · subst h1; decide
  · by_cases h2 : k = ofS "claims"
    · subst h2; decide
    · unfold get
      have e1 : List.find? (fun p => (p.1 = k : Bool))
          [(ofS "title", JSVal.str (ofS "T")), (ofS "claims", JSVal.arr [ofS "a", ofS "b"])] = none := by
        rw [List.find?_eq_none]
        intro x hx
        simp only [List.mem_cons, List.mem_singleton, List.not_mem_nil] at hx
        rcases hx with hx | hx | hx
        · subst hx; simpa using fun hc => h1 hc.symm
        · subst hx; simpa using fun hc => h2 hc.symm
        · exact absurd hx (by simp)
      have e2 : List.find? (fun p => (p.1 = k : Bool))
          [(ofS "claims", JSVal.arr [ofS "a", ofS "b"]), (ofS "title", JSVal.str (ofS "T"))] = none := by
        rw [List.find?_eq_none]
        intro x hx
        simp only [List.mem_cons, List.mem_singleton, List.not_mem_nil] at hx
        rcases hx with hx | hx | hx
        · subst hx; simpa using fun hc => h2 hc.symm
        · subst hx; simpa using fun hc => h1 hc.symm
        · exact absurd hx (by simp)
      rw [e1, e2]

/-! ## C6: claims cardinality in `validateFullJSON`

The "too few"/"too many" messages start with the character `c`; every other
message `validateFullJSON` can emit starts with `M`, `R`, `I` or `i`, so a
first-character analysis separates the claims-rule messages from the rest. -/

theorem mem_jsonFieldErrs {json : ObjMap} {field msg : Str}
    (h : msg ∈ jsonFieldErrs json field) :
    msg = ofS "Missing required field: " ++ field ∨
      msg = ofS "Required field is empty: " ++ field := by
  unfold jsonFieldErrs at h
  rcases hg : get json field with _ | v
  · rw [hg] at h
    simp only [List.mem_singleton] at h
    exact Or.inl h
  · rw [hg] at h
    rcases v with s | l | _
    · dsimp only at h
      split at h
      · simp only [List.mem_singleton] at h
        exact Or.inr h
      · exact absurd h (List.not_mem_nil msg)
    · dsimp only at h
      split at h
      · simp only [List.mem_singleton] at h
        exact Or.inr h
      · exact absurd h (List.not_mem_nil msg)
    · simp only [List.mem_singleton] at h
      exact Or.inl h

theorem get0_mem_reqErrs {json : ObjMap} {msg : Str}
    (h : msg ∈ JSON_REQUIRED_FIELDS.flatMap (jsonFieldErrs json)) :
    msg[0]? = some 'M' ∨ msg[0]? = some 'R' := by
  rw [List.mem_flatMap] at h
  obtain ⟨f, _, hm⟩ := h
  rcases mem_jsonFieldErrs hm with h' | h' <;> subst h'
  · exact Or.inl (by rw [List.getElem?_append_left (by decide)]; decide)
  · exact Or.inr (by rw [List.getElem?_append_left (by decide)]; decide)

theorem get0_mem_intentErrs {json : ObjMap} {msg : Str}
    (h : msg ∈ intentErrs json) : msg[0]? = some 'I' := by
  unfold intentErrs at h
  split at h
  · split at h
    · rw [List.mem_singleton] at h
      subst h
      simp only [List.append_assoc]
      rw [List.getElem?_append_left (by decide)]
      decide
    · exact absurd h (List.not_mem_nil msg)
  · exact absurd h (List.not_mem_nil msg)

theorem get0_mem_stanceErrs {json : ObjMap} {msg : Str}
    (h : msg ∈ stanceErrs json) : msg[0]? = some 'I' := by
  unfold stanceErrs at h
  split at h
  · split at h
    · rw [List.mem_singleton] at h
      subst h
      simp only [List.append_assoc]
      rw [List.getElem?_append_left (by decide)]
      decide
    · exact absurd h (List.not_mem_nil msg)
  · exact absurd h (List.not_mem_nil msg)

theorem get0_mem_idErrs {json : ObjMap} {msg : Str}
    (h : msg ∈ idErrs json) : msg[0]? = some 'i' := by
  unfold idErrs at h
  split at h
  · split at h
    · rw [List.mem_singleton] at h
      subst h
      unfold idErrMsg
      simp only [List.append_assoc]
      rw [List.getElem?_append_left (by decide)]
      decide
    · exact absurd h (List.not_mem_nil msg)
  · exact absurd h (List.not_mem_nil msg)

theorem get0_tooFewClaimsMsg (n : Nat) : (tooFewClaimsMsg n)[0]? = some 'c' := by
  unfold tooFewClaimsMsg
  simp only [List.append_assoc]
  rw [List.getElem?_append_left (by decide)]
  decide

theorem get0_tooManyClaimsMsg (n : Nat) : (tooManyClaimsMsg n)[0]? = some 'c' := by
  unfold tooManyClaimsMsg
  simp only [List.append_assoc]
  rw [List.getElem?_append_left (by decide)]
  decide

theorem get22_tooFewClaimsMsg (n : Nat) : (tooFewClaimsMsg n)[22]? = some 'l' := by
  unfold tooFewClaimsMsg
  simp only [List.append_assoc]
  rw [List.getElem?_append_left (by decide)]
  decide

theorem get22_tooManyClaimsMsg (n : Nat) : (tooManyClaimsMsg n)[22]? = some 'm' := by
  unfold tooManyClaimsMsg
  simp only [List.append_assoc]
  rw [List.getElem?_append_left (by decide)]
  decide

theorem tooFew_ne_tooMany (n m : Nat) : tooFewClaimsMsg n ≠ tooManyClaimsMsg m := by
  intro he
  have : (tooFewClaimsMsg n)[22]? = (tooManyClaimsMsg m)[22]? := by rw [he]
  rw [get22_tooFewClaimsMsg, get22_tooManyClaimsMsg] at this
  exact absurd this (by decide)

theorem claims_msg_not_in_others (json : ObjMap) (msg : Str)
    (h0 : msg[0]? = some 'c') :
    msg ∉ JSON_REQUIRED_FIELDS.flatMap (jsonFieldErrs json) ∧
      msg ∉ intentErrs json ∧ msg ∉ stanceErrs json ∧ msg ∉ idErrs json := by
  refine ⟨fun h => ?_, fun h => ?_, fun h => ?_, fun h => ?_⟩
  · rcases get0_mem_reqErrs h with h' | h' <;> rw [h0] at h' <;> exact absurd h' (by decide)
  · have h' := get0_mem_intentErrs h
    rw [h0] at h'
    exact absurd h' (by decide)
  · have h' := get0_mem_stanceErrs h
    rw [h0] at h'
    exact absurd h' (by decide)
  · have h' := get0_mem_idErrs h
    rw [h0] at h'
    exact absurd h' (by decide)

/-- C6.  Claims cardinality rule: with `claims` bound to an array `c`,
`validateFullJSON` reports the specific "too few" message when
`c.length < 3`, the specific (and distinct) "too many" message when
`c.length > 7`, and no claims-rule message at all when
`3 ≤ c.length ≤ 7` (in particular at lengths 3 and 7). -/
theorem validateFullJSON_claims_cardinality (json : ObjMap) (c : List Str)
    (h : get json (ofS "claims") = some (JSVal.arr c)) :
    (c.length < 3 →
        tooFewClaimsMsg c.length ∈ (validateFullJSON json).errors ∧
        ∀ n, tooManyClaimsMsg n ∉ (validateFullJSON json).errors) ∧
    (c.length > 7 →
        tooManyClaimsMsg c.length ∈ (validateFullJSON json).errors ∧
        ∀ n, tooFewClaimsMsg n ∉ (validateFullJSON json).errors) ∧
    (3 ≤ c.length → c.length ≤ 7 →
        (∀ n, tooFewClaimsMsg n ∉ (validateFullJSON json).errors) ∧
        ∀ n, tooManyClaimsMsg n ∉ (validateFullJSON json).errors) ∧
    (∀ n m, tooFewClaimsMsg n ≠ tooManyClaimsMsg m) := by
  have hclaims : claimsErrs json =
      (if c.length < 3 then [tooFewClaimsMsg c.length]
       else if c.length > 7 then [tooManyClaimsMsg c.length] else []) := by
    unfold claimsErrs
    rw [h]
  have herr : (validateFullJSON json).errors =
      JSON_REQUIRED_FIELDS.flatMap (jsonFieldErrs json) ++
        intentErrs json ++ stanceErrs json ++ claimsErrs json ++ idErrs json := rfl
  refine ⟨fun hlt => ?_, fun hgt => ?_, fun h3 h7 => ?_, tooFew_ne_tooMany⟩
  · constructor
    · rw [herr, hclaims, if_pos hlt]
      simp [List.mem_append]
    · intro n hn
      rw [herr] at hn
      obtain ⟨o1, o2, o3, o4⟩ :=
        claims_msg_not_in_others json (tooManyClaimsMsg n) (get0_tooManyClaimsMsg n)
      simp only [List.mem_append] at hn
      rcases hn with (((h' | h') | h') | h') | h'
      · exact o1 h'
      · exact o2 h'
      · exact o3 h'
      · rw [hclaims, if_pos hlt] at h'
        simp only [List.mem_singleton] at h'
        exact tooFew_ne_tooMany c.length n h'.symm
      · exact o4 h'
  · constructor
    · rw [herr, hclaims, if_neg (by omega), if_pos hgt]
      simp [List.mem_append]
    · intro n hn
      rw [herr] at hn
      obtain ⟨o1, o2, o3, o4⟩ :=
        claims_msg_not_in_others json (tooFewClaimsMsg n) (get0_tooFewClaimsMsg n)
      simp only [List.mem_append] at hn
      rcases hn with (((h' | h') | h') | h') | h'
      · exact o1 h'
      · exact o2 h'
      · exact o3 h'
      · rw [hclaims, if_neg (by omega), if_pos hgt] at h'
        simp only [List.mem_singleton] at h'
        exact tooFew_ne_tooMany n c.length h'
      · exact o4 h'
  · have hclaims' : claimsErrs json = [] := by
      rw [hclaims, if_neg (by omega), if_neg (by omega)]
    constructor <;> intro n hn <;> rw [herr, hclaims'] at hn <;>
      simp only [List.mem_append, List.not_mem_nil, or_false] at hn
    · obtain ⟨o1, o2, o3, o4⟩ :=
        claims_msg_not_in_others json (tooFewClaimsMsg n) (get0_tooFewClaimsMsg n)
      rcases hn with ((h' | h') | h') | h'
      · exact o1 h'
      · exact o2 h'
      · exact o3 h'
      · exact o4 h'
    · obtain ⟨o1, o2, o3, o4⟩ :=
        claims_msg_not_in_others json (tooManyClaimsMsg n) (get0_tooManyClaimsMsg n)
      rcases hn with ((h' | h') | h') | h'
      · exact o1 h'
      · exact o2 h'
      · exact o3 h'
      · exact o4 h'

/-- Witness for C6: a map whose `claims` array has length 2 gets the
"too few" message. -/
theorem validateFullJSON_claims_cardinality_witness :
    tooFewClaimsMsg 2 ∈
      (validateFullJSON [(ofS "claims", JSVal.arr [ofS "a", ofS "b"])]).errors := by
  have h := validateFullJSON_claims_cardinality
    [(ofS "claims", JSVal.arr [ofS "a", ofS "b"])] [ofS "a", ofS "b"] (by decide)
  exact (h.1 (by decide)).1

/-! ## Equation lemmas for the two validators' required-field checks -/

theorem stampFieldErrs_eq_of_none {fields : ObjMap} {f : Str}
    (h : get fields f = none) :
    stampFieldErrs fields f = [ofS "Missing required stamp field: " ++ f] := by
  unfold stampFieldErrs
  rw [h]
  simp [truthyO]

theorem stampFieldErrs_eq_of_null {fields : ObjMap} {f : Str}
    (h : get fields f = some JSVal.jnull) :
    stampFieldErrs fields f = [ofS "Missing required stamp field: " ++ f] := by
  unfold stampFieldErrs
  rw [h]
  simp [truthyO, JSVal.truthy]

theorem stampFieldErrs_eq_of_str {fields : ObjMap} {f s : Str}
    (h : get fields f = some (JSVal.str s)) :
    stampFieldErrs fields f =
      if s = [] then [ofS "Missing required stamp field: " ++ f]
      else if jsTrim s = [] then [ofS "Required stamp field is empty: " ++ f]
      else [] := by
  unfold stampFieldErrs
  rw [h]
  by_cases hs : s = []
  · subst hs
    simp [truthyO, JSVal.truthy]
  · rw [if_neg hs]
    have ht : truthyO (some (JSVal.str s)) = true := by
      simp [truthyO, JSVal.truthy, hs]
    rw [ht]
    by_cases htr : jsTrim s = []
    · simp [htr]
    · simp [htr]

theorem stampFieldErrs_eq_of_arr {fields : ObjMap} {f : Str} {l : List Str}
    (h : get fields f = some (JSVal.arr l)) :
    stampFieldErrs fields f =
      if l = [] then [ofS "Required stamp field is empty: " ++ f] else [] := by
  unfold stampFieldErrs
  rw [h]
  have ht : truthyO (some (JSVal.arr l)) = true := by simp [truthyO, JSVal.truthy]
  rw [ht]
  by_cases hl : l = [] <;> simp [hl]

theorem jsonFieldErrs_eq_of_none {json : ObjMap} {f : Str}
    (h : get json f = none) :
    jsonFieldErrs json f = [ofS "Missing required field: " ++ f] := by
  unfold jsonFieldErrs
  rw [h]

theorem jsonFieldErrs_eq_of_null {json : ObjMap} {f : Str}
    (h : get json f = some JSVal.jnull) :
    jsonFieldErrs json f = [ofS "Missing required field: " ++ f] := by
  unfold jsonFieldErrs
  rw [h]

theorem jsonFieldErrs_eq_of_str {json : ObjMap} {f s : Str}
    (h : get json f = some (JSVal.str s)) :
    jsonFieldErrs json f =
      if jsTrim s = [] then [ofS "Required field is empty: " ++ f] else [] := by
  unfold jsonFieldErrs
  rw [h]
  by_cases htr : jsTrim s = [] <;> simp [htr]

theorem jsonFieldErrs_eq_of_arr {json : ObjMap} {f : Str} {l : List Str}
    (h : get json f = some (JSVal.arr l)) :
    jsonFieldErrs json f =
      if l = [] then [ofS "Required field is empty: " ++ f] else [] := by
  unfold jsonFieldErrs
  rw [h]
  by_cases hl : l = [] <;> simp [hl]

theorem encodingErrs_eq_of_zg {fields : ObjMap}
    (h : get fields (ofS "encoding") = some (JSVal.str (ofS "zero-gravity"))) :
    encodingErrs fields = [] := by
  unfold encodingErrs
  rw [h]
  simp

theorem get0_mem_encodingErrs {fields : ObjMap} {msg : Str}
    (h : msg ∈ encodingErrs fields) : msg[0]? = some 'U' := by
  unfold encodingErrs at h
  split at h
  · split at h
    · rw [List.mem_singleton] at h
      subst h
      simp only [List.append_assoc]
      rw [List.getElem?_append_left (by decide)]
      decide
    · exact absurd h (List.not_mem_nil msg)
  · exact absurd h (List.not_mem_nil msg)

/-! ## C10 and C7: `validateStamp` -/

theorem get0_missingStamp (k : Str) :
    (ofS "Missing required stamp field: " ++ k)[0]? = some 'M' := by
  rw [List.getElem?_append_left (by decide)]
  decide

theorem get0_emptyStamp (k : Str) :
    (ofS "Required stamp field is empty: " ++ k)[0]? = some 'R' := by
  rw [List.getElem?_append_left (by decide)]
  decide

theorem missingStamp_ne_emptyStamp (k f : Str) :
    ofS "Required stamp field is empty: " ++ k ≠ ofS "Missing required stamp field: " ++ f := by
  intro he
  have h := congrArg (fun l => l[0]?) he
  simp only at h
  rw [get0_emptyStamp, get0_missingStamp] at h
  exact absurd h (by decide)

theorem emptyStamp_inj {k f : Str}
    (h : ofS "Required stamp field is empty: " ++ k = ofS "Required stamp field is empty: " ++ f) :
    k = f := List.append_cancel_left h

/-- The "empty" message for `k` is in `validateStamp`'s error list iff the
field is a truthy-but-blank string or an empty array. -/
theorem emptyStamp_mem_iff (fields : ObjMap) (k : Str)
    (hk : k ∈ STAMP_REQUIRED_FIELDS) :
    (ofS "Required stamp field is empty: " ++ k) ∈ (validateStamp fields).errors ↔
      (∃ s, get fields k = some (JSVal.str s) ∧ s ≠ [] ∧ jsTrim s = []) ∨
        get fields k = some (JSVal.arr []) := by
  have herr : (validateStamp fields).errors =
      STAMP_REQUIRED_FIELDS.flatMap (stampFieldErrs fields) ++ encodingErrs fields := rfl
  rw [herr]
  constructor
  · intro h
    rcases List.mem_append.mp h with h | h
    · obtain ⟨f, _, hm⟩ := List.mem_flatMap.mp h
      rcases hg : get fields f with _ | v
      · rw [stampFieldErrs_eq_of_none hg, List.mem_singleton] at hm
        exact absurd hm (missingStamp_ne_emptyStamp k f)
      · rcases v with s | l | _
        · rw [stampFieldErrs_eq_of_str hg] at hm
          split_ifs at hm with h1 h2
          · rw [List.mem_singleton] at hm
            exact absurd hm (missingStamp_ne_emptyStamp k f)
          · rw [List.mem_singleton] at hm
            obtain rfl := emptyStamp_inj hm
            exact Or.inl ⟨s, hg, h1, h2⟩
          · exact absurd hm (List.not_mem_nil _)
        · rw [stampFieldErrs_eq_of_arr hg] at hm
          split_ifs at hm with h1
          · rw [List.mem_singleton] at hm
            obtain rfl := emptyStamp_inj hm
            subst h1
            exact Or.inr hg
          · exact absurd hm (List.not_mem_nil _)
        · rw [stampFieldErrs_eq_of_null hg, List.mem_singleton] at hm
          exact absurd hm (missingStamp_ne_emptyStamp k f)
    · have h0 := get0_mem_encodingErrs h
      rw [get0_emptyStamp] at h0
      exact absurd h0 (by decide)
  · intro h
    apply List.mem_append.mpr
    left
    apply List.mem_flatMap.mpr
    refine ⟨k, hk, ?_⟩
    rcases h with ⟨s, hg, hs, htr⟩ | hg
    · rw [stampFieldErrs_eq_of_str hg, if_neg hs, if_pos htr]
      exact List.mem_singleton.mpr rfl
    · rw [stampFieldErrs_eq_of_arr hg, if_pos rfl]
      exact List.mem_singleton.mpr rfl

/-- C10.  A required stamp field bound to the empty string is reported with
the "Missing required stamp field" message, never the
"Required stamp field is empty" message; the "empty" message appears
exactly when the field is a non-empty whitespace-only string or an empty
array. -/
theorem validateStamp_empty_string_reported_missing (fields : ObjMap) (k : Str)
    (hk : k ∈ STAMP_REQUIRED_FIELDS) :
    (get fields k = some (JSVal.str []) →
      (ofS "Missing required stamp field: " ++ k) ∈ (validateStamp fields).errors ∧
      (ofS "Required stamp field is empty: " ++ k) ∉ (validateStamp fields).errors) ∧
    ((ofS "Required stamp field is empty: " ++ k) ∈ (validateStamp fields).errors ↔
      (∃ s, get fields k = some (JSVal.str s) ∧ s ≠ [] ∧ jsTrim s = []) ∨
        get fields k = some (JSVal.arr [])) := by
  refine ⟨fun hg => ⟨?_, ?_⟩, emptyStamp_mem_iff fields k hk⟩
  · show _ ∈ STAMP_REQUIRED_FIELDS.flatMap (stampFieldErrs fields) ++ encodingErrs fields
    apply List.mem_append.mpr
    left
    apply List.mem_flatMap.mpr
    refine ⟨k, hk, ?_⟩
    rw [stampFieldErrs_eq_of_str hg, if_pos rfl]
    exact List.mem_singleton.mpr rfl
  · intro hmem
    rcases (emptyStamp_mem_iff fields k hk).mp hmem with ⟨s, hg', hs, _⟩ | hg'
    · rw [hg] at hg'
      injection hg' with hv
      injection hv with hs'
      exact hs hs'.symm
    · rw [hg] at hg'
      injection hg' with hv
      exact JSVal.noConfusion hv

/-- Witness for C10 at `version: ""` in a concrete map: the message is the
"Missing" one and the "empty" one is absent. -/
theorem validateStamp_empty_string_reported_missing_witness :
    (ofS "Missing required stamp field: " ++ ofS "version") ∈
      (validateStamp [(ofS "version", JSVal.str [])]).errors ∧
    (ofS "Required stamp field is empty: " ++ ofS "version") ∉
      (validateStamp [(ofS "version", JSVal.str [])]).errors := by
  have h := validateStamp_empty_string_reported_missing
    [(ofS "version", JSVal.str [])] (ofS "version") (by decide)
  exact h.1 (by decide)

theorem jsTrim_nil : jsTrim [] = [] := rfl

/-- Counterexample to C7 as stated: a map whose four scalar fields are all
non-empty (`version` is the one-space string) and whose `indexes` key is
absent makes `validateStamp` report two errors, not exactly one. -/
theorem validateStamp_nonempty_scalars_two_errors :
    get [(ofS "encoding", JSVal.str (ofS "zero-gravity")),
         (ofS "version", JSVal.str (ofS " ")),
         (ofS "title", JSVal.str (ofS "t")),
         (ofS "intent", JSVal.str (ofS "i"))] (ofS "encoding") =
        some (JSVal.str (ofS "zero-gravity")) ∧
    get [(ofS "encoding", JSVal.str (ofS "zero-gravity")),
         (ofS "version", JSVal.str (ofS " ")),
         (ofS "title", JSVal.str (ofS "t")),
         (ofS "intent", JSVal.str (ofS "i"))] (ofS "version") =
        some (JSVal.str (ofS " ")) ∧
    ofS " " ≠ [] ∧
    get [(ofS "encoding", JSVal.str (ofS "zero-gravity")),
         (ofS "version", JSVal.str (ofS " ")),
         (ofS "title", JSVal.str (ofS "t")),
         (ofS "intent", JSVal.str (ofS "i"))] (ofS "indexes") = none ∧
    (validateStamp [(ofS "encoding", JSVal.str (ofS "zero-gravity")),
         (ofS "version", JSVal.str (ofS " ")),
         (ofS "title", JSVal.str (ofS "t")),
         (ofS "intent", JSVal.str (ofS "i"))]).errors.length = 2 := by
  decide

/-- C7 (amended: the scalar fields must be non-blank, i.e. non-empty after
trimming — a whitespace-only value triggers an additional "empty" error).
With `encoding = "zero-gravity"`, non-blank `version`, `title`, `intent`,
and no `indexes` key, `validateStamp` returns `valid = false` and exactly
one error, naming `indexes`. -/
theorem validateStamp_missing_indexes_single_error (fields : ObjMap) (v t i : Str)
    (henc : get fields (ofS "encoding") = some (JSVal.str (ofS "zero-gravity")))
    (hver : get fields (ofS "version") = some (JSVal.str v)) (hver' : jsTrim v ≠ [])
    (htit : get fields (ofS "title") = some (JSVal.str t)) (htit' : jsTrim t ≠ [])
    (hint : get fields (ofS "intent") = some (JSVal.str i)) (hint' : jsTrim i ≠ [])
    (hidx : get fields (ofS "indexes") = none) :
    (validateStamp fields).valid = false ∧
      (validateStamp fields).errors =
        [ofS "Missing required stamp field: " ++ ofS "indexes"] := by
  have e1 : stampFieldErrs fields (ofS "encoding") = [] := by
    rw [stampFieldErrs_eq_of_str henc, if_neg (by decide), if_neg (by decide)]
  have e2 : stampFieldErrs fields (ofS "version") = [] := by
    rw [stampFieldErrs_eq_of_str hver, if_neg (fun h => hver' (by rw [h]; rfl)), if_neg hver']
  have e3 : stampFieldErrs fields (ofS "title") = [] := by
    rw [stampFieldErrs_eq_of_str htit, if_neg (fun h => htit' (by rw [h]; rfl)), if_neg htit']
  have e4 : stampFieldErrs fields (ofS "intent") = [] := by
    rw [stampFieldErrs_eq_of_str hint, if_neg (fun h => hint' (by rw [h]; rfl)), if_neg hint']
  have e5 : stampFieldErrs fields (ofS "indexes") =
      [ofS "Missing required stamp field: " ++ ofS "indexes"] :=
    stampFieldErrs_eq_of_none hidx
  have herr : (validateStamp fields).errors =
      stampFieldErrs fields (ofS "encoding") ++
        (stampFieldErrs fields (ofS "version") ++
          (stampFieldErrs fields (ofS "title") ++
            (stampFieldErrs fields (ofS "intent") ++
              (stampFieldErrs fields (ofS "indexes") ++ [])))) ++
        encodingErrs fields := rfl
  have herrs : (validateStamp fields).errors =
      [ofS "Missing required stamp field: " ++ ofS "indexes"] := by
    rw [herr, e1, e2, e3, e4, e5, encodingErrs_eq_of_zg henc]
    simp
  refine ⟨?_, herrs⟩
  show ((validateStamp fields).errors).isEmpty = false
  rw [herrs]
  rfl

/-- Witness for the amended C7 at a concrete map. -/
theorem validateStamp_missing_indexes_single_error_witness :
    (validateStamp [(ofS "encoding", JSVal.str (ofS "zero-gravity")),
         (ofS "version", JSVal.str (ofS "0.1")),
         (ofS "title", JSVal.str (ofS "T")),
         (ofS "intent", JSVal.str (ofS "proposal"))]).valid = false ∧
      (validateStamp [(ofS "encoding", JSVal.str (ofS "zero-gravity")),
         (ofS "version", JSVal.str (ofS "0.1")),
         (ofS "title", JSVal.str (ofS "T")),
         (ofS "intent", JSVal.str (ofS "proposal"))]).errors =
        [ofS "Missing required stamp field: " ++ ofS "indexes"] :=
  validateStamp_missing_indexes_single_error
    [(ofS "encoding", JSVal.str (ofS "zero-gravity")),
     (ofS "version", JSVal.str (ofS "0.1")),
     (ofS "title", JSVal.str (ofS "T")),
     (ofS "intent", JSVal.str (ofS "proposal"))]
    (ofS "0.1") (ofS "T") (ofS "proposal")
    (by decide) (by decide) (by decide) (by decide) (by decide) (by decide) (by decide)
    (by decide)

/-! ## C8: the id pattern rule of `validateFullJSON` -/

theorem intentErrs_eq_of_vocab {json : ObjMap} {s : Str}
    (h : get json (ofS "intent") = some (JSVal.str s)) (hs : s ∈ VALID_INTENTS) :
    intentErrs json = [] := by
  unfold intentErrs
  rw [h]
  have h2 : includesVal VALID_INTENTS (JSVal.str s) = true := by
    simp only [includesVal]
    exact List.elem_eq_true_of_mem hs
  simp [h2]

theorem stanceErrs_eq_of_none {json : ObjMap}
    (h : get json (ofS "stance") = none) : stanceErrs json = [] := by
  unfold stanceErrs
  rw [h]

theorem stanceErrs_eq_of_vocab {json : ObjMap} {s : Str}
    (h : get json (ofS "stance") = some (JSVal.str s)) (hs : s ∈ VALID_STANCES) :
    stanceErrs json = [] := by
  unfold stanceErrs
  rw [h]
  have h2 : includesVal VALID_STANCES (JSVal.str s) = true := by
    simp only [includesVal]
    exact List.elem_eq_true_of_mem hs
  simp [h2]

theorem claimsErrs_eq_of_str {json : ObjMap} {s : Str}
    (h : get json (ofS "claims") = some (JSVal.str s)) : claimsErrs json = [] := by
  unfold claimsErrs
  rw [h]

theorem claimsErrs_eq_of_arr {json : ObjMap} {c : List Str}
    (h : get json (ofS "claims") = some (JSVal.arr c)) :
    claimsErrs json =
      if c.length < 3 then [tooFewClaimsMsg c.length]
      else if c.length > 7 then [tooManyClaimsMsg c.length]
      else [] := by
  unfold claimsErrs
  rw [h]

theorem idErrs_eq_of_pattern_ok {json : ObjMap} {s : Str}
    (h : get json (ofS "id") = some (JSVal.str s)) (hne : s ≠ [])
    (hall : s.all isIdChar = true) : idErrs json = [] := by
  unfold idErrs
  rw [h]
  have ht : testIdPattern (JSVal.str s).jsToString = true := by
    simp only [JSVal.jsToString, testIdPattern, hall, Bool.and_true]
    simpa using hne
  simp [ht]

theorem vocab_intent_trim_ne {s : Str} (hs : s ∈ VALID_INTENTS) : jsTrim s ≠ [] := by
  simp only [VALID_INTENTS, List.mem_cons, List.mem_singleton, List.not_mem_nil, or_false] at hs
  rcases hs with rfl | rfl | rfl | rfl | rfl <;> decide

/-- Counterexample to C8 as stated: with `id: "Bad_ID!"`, `intent` in the
vocabulary, `claims` an array of three items, and `relevance` bound to the
non-empty (whitespace-only) string `" "`, `validateFullJSON` reports two
errors, not only the id-pattern error. -/
theorem validateFullJSON_bad_id_two_errors :
    get [(ofS "id", JSVal.str (ofS "Bad_ID!")),
         (ofS "intent", JSVal.str (ofS "proposal")),
         (ofS "relevance", JSVal.str (ofS " ")),
         (ofS "claims", JSVal.arr [ofS "a", ofS "b", ofS "c"])] (ofS "relevance") =
        some (JSVal.str (ofS " ")) ∧
    ofS " " ≠ [] ∧
    (validateFullJSON [(ofS "id", JSVal.str (ofS "Bad_ID!")),
         (ofS "intent", JSVal.str (ofS "proposal")),
         (ofS "relevance", JSVal.str (ofS " ")),
         (ofS "claims", JSVal.arr [ofS "a", ofS "b", ofS "c"])]).errors.length = 2 := by
  decide

/-- C8 (amended: required fields must be non-blank, not just non-empty).
With `id: "Bad_ID!"`, the other required keys present and non-blank,
`intent` (and `stance` if present) in vocabulary, and `claims` in range
when an array, `validateFullJSON` fails with exactly the id-pattern error;
and an id made of lowercase letters, digits and hyphens never gets the
id-pattern error. -/
theorem validateFullJSON_bad_id_exactly_pattern_error (json : ObjMap) (si : Str)
    (hid : get json (ofS "id") = some (JSVal.str (ofS "Bad_ID!")))
    (hint : get json (ofS "intent") = some (JSVal.str si))
    (hsi : si ∈ VALID_INTENTS)
    (hrel : (∃ s, get json (ofS "relevance") = some (JSVal.str s) ∧ jsTrim s ≠ []) ∨
      (∃ l, get json (ofS "relevance") = some (JSVal.arr l) ∧ l ≠ []))
    (hcl : (∃ s, get json (ofS "claims") = some (JSVal.str s) ∧ jsTrim s ≠ []) ∨
      (∃ c, get json (ofS "claims") = some (JSVal.arr c) ∧ 3 ≤ c.length ∧ c.length ≤ 7))
    (hst : get json (ofS "stance") = none ∨
      (∃ s, get json (ofS "stance") = some (JSVal.str s) ∧ s ∈ VALID_STANCES)) :
    ((validateFullJSON json).valid = false ∧
      (validateFullJSON json).errors = [idErrMsg (JSVal.str (ofS "Bad_ID!"))]) ∧
    (∀ (json' : ObjMap) (s : Str), get json' (ofS "id") = some (JSVal.str s) →
      s ≠ [] → s.all isIdChar = true → idErrs json' = []) := by
  refine ⟨?_, fun json' s h hne hall => idErrs_eq_of_pattern_ok h hne hall⟩
  have e1 : jsonFieldErrs json (ofS "id") = [] := by
    rw [jsonFieldErrs_eq_of_str hid, if_neg (by decide)]
  have e2 : jsonFieldErrs json (ofS "intent") = [] := by
    rw [jsonFieldErrs_eq_of_str hint, if_neg (vocab_intent_trim_ne hsi)]
  have e3 : jsonFieldErrs json (ofS "relevance") = [] := by
    rcases hrel with ⟨s, hg, hs⟩ | ⟨l, hg, hl⟩
    · rw [jsonFieldErrs_eq_of_str hg, if_neg hs]
    · rw [jsonFieldErrs_eq_of_arr hg, if_neg hl]
  have e4 : jsonFieldErrs json (ofS "claims") = [] := by
    rcases hcl with ⟨s, hg, hs⟩ | ⟨c, hg, h3, _⟩
    · rw [jsonFieldErrs_eq_of_str hg, if_neg hs]
    · rw [jsonFieldErrs_eq_of_arr hg, if_neg (by intro h; subst h; simp at h3)]
  have e5 : intentErrs json = [] := intentErrs_eq_of_vocab hint hsi
  have e6 : stanceErrs json = [] := by
    rcases hst with hg | ⟨s, hg, hs⟩
    · exact stanceErrs_eq_of_none hg
    · exact stanceErrs_eq_of_vocab hg hs
  have e7 : claimsErrs json = [] := by
    rcases hcl with ⟨s, hg, _⟩ | ⟨c, hg, h3, h7⟩
    · exact claimsErrs_eq_of_str hg
    · rw [claimsErrs_eq_of_arr hg, if_neg (by omega), if_neg (by omega)]
  have e8 : idErrs json = [idErrMsg (JSVal.str (ofS "Bad_ID!"))] := by
    unfold idErrs
    rw [hid]
    decide
  have herr : (validateFullJSON json).errors =
      (jsonFieldErrs json (ofS "id") ++
        (jsonFieldErrs json (ofS "intent") ++
          (jsonFieldErrs json (ofS "relevance") ++
            (jsonFieldErrs json (ofS "claims") ++ [])))) ++
        intentErrs json ++ stanceErrs json ++ claimsErrs json ++ idErrs json := rfl
  have herrs : (validateFullJSON json).errors = [idErrMsg (JSVal.str (ofS "Bad_ID!"))] := by
    rw [herr, e1, e2, e3, e4, e5, e6, e7, e8]
    simp
  refine ⟨?_, herrs⟩
  show ((validateFullJSON json).errors).isEmpty = false
  rw [herrs]
  rfl

/-- Witness for the amended C8 at a concrete map. -/
theorem validateFullJSON_bad_id_exactly_pattern_error_witness :
    ((validateFullJSON [(ofS "id", JSVal.str (ofS "Bad_ID!")),
         (ofS "intent", JSVal.str (ofS "proposal")),
         (ofS "relevance", JSVal.str (ofS "r")),
         (ofS "claims", JSVal.arr [ofS "a", ofS "b", ofS "c"])]).valid = false ∧
      (validateFullJSON [(ofS "id", JSVal.str (ofS "Bad_ID!")),
         (ofS "intent", JSVal.str (ofS "proposal")),
         (ofS "relevance", JSVal.str (ofS "r")),
         (ofS "claims", JSVal.arr [ofS "a", ofS "b", ofS "c"])]).errors =
        [idErrMsg (JSVal.str (ofS "Bad_ID!"))]) ∧
    (∀ (json' : ObjMap) (s : Str), get json' (ofS "id") = some (JSVal.str s) →
      s ≠ [] → s.all isIdChar = true → idErrs json' = []) :=
  validateFullJSON_bad_id_exactly_pattern_error
    [(ofS "id", JSVal.str (ofS "Bad_ID!")),
     (ofS "intent", JSVal.str (ofS "proposal")),
     (ofS "relevance", JSVal.str (ofS "r")),
     (ofS "claims", JSVal.arr [ofS "a", ofS "b", ofS "c"])]
    (ofS "proposal")
    (by decide) (by decide) (by decide)
    (Or.inl ⟨ofS "r", by decide, by decide⟩)
    (Or.inr ⟨[ofS "a", ofS "b", ofS "c"], by decide, by decide, by decide⟩)
    (Or.inl (by decide))

/-! ## C9: `buildFullJSON` -/

theorem get_foldl_setKey_match (fields : ObjMap) (base : ObjMap) (k : Str) :
    get (fields.foldl (fun m p => setKey m p.1 p.2) base) k =
      match fields.reverse.find? (fun p => p.1 = k) with
      | some p => some p.2
      | none => get base k := by
  induction fields generalizing base with
  | nil => rfl
  | cons p rest ih =>
    rw [List.foldl_cons, ih, List.reverse_cons, List.find?_append]
    rcases hf : rest.reverse.find? (fun p => p.1 = k) with _ | q
    · rw [hf, Option.none_or]
      by_cases hpk : p.1 = k
      · rw [List.find?_cons_of_pos _ (by simpa using hpk)]
        rw [get_setKey, if_pos hpk.symm]
      · rw [List.find?_cons_of_neg _ (by simpa using hpk)]
        rw [get_setKey, if_neg (fun h => hpk h.symm)]
        rfl
    · rw [hf, Option.or_some]

theorem reverse_find?_eq_find? (m : ObjMap) (hnd : (m.map Prod.fst).Nodup) (k : Str) :
    m.reverse.find? (fun p => p.1 = k) = m.find? (fun p => p.1 = k) := by
  induction m with
  | nil => rfl
  | cons p rest ih =>
    rw [List.map_cons, List.nodup_cons] at hnd
    obtain ⟨hp, hnd'⟩ := hnd
    rw [List.reverse_cons, List.find?_append]
    by_cases hpk : p.1 = k
    · have hrest : rest.find? (fun p => p.1 = k) = none := by
        rw [List.find?_eq_none]
        intro x hx hc
        simp only [decide_eq_true_eq] at hc
        have hxp : x.1 = p.1 := hc.trans hpk.symm
        exact hp (hxp ▸ List.mem_map_of_mem Prod.fst hx)
      have hrev : rest.reverse.find? (fun p => p.1 = k) = none := by
        rw [List.find?_eq_none]
        intro x hx
        exact List.find?_eq_none.mp hrest x (List.mem_reverse.mp hx)
      rw [hrev, Option.none_or, List.find?_cons_of_pos _ (by simpa using hpk)]
      simp [List.find?_cons_of_pos, hpk]
    · have h1 : List.find? (fun q => (q.1 = k : Bool)) [p] = none := by
        rw [List.find?_eq_none]
        intro x hx
        rw [List.mem_singleton] at hx
        subst hx
        simpa using hpk
      rw [h1, Option.or_none, ih hnd', List.find?_cons_of_neg _ (by simpa using hpk)]

theorem get_foldl_setKey (fields : ObjMap) (base : ObjMap) (k : Str)
    (hnd : (fields.map Prod.fst).Nodup) :
    get (fields.foldl (fun m p => setKey m p.1 p.2) base) k =
      (get fields k).or (get base k) := by
  rw [get_foldl_setKey_match, reverse_find?_eq_find? fields hnd]
  unfold get
  rcases hf : fields.find? (fun p => p.1 = k) with _ | q <;> rw [hf] <;> simp

/-- Counterexample to C9 as stated: a caller-supplied `created_at` does
not win — `buildFullJSON` overwrites it with the assembly-time timestamp,
because `created_at` is set after the caller fields are spread in. -/
theorem buildFullJSON_created_at_overwritten :
    get [(ofS "created_at", JSVal.str (ofS "X"))] (ofS "created_at") =
        some (JSVal.str (ofS "X")) ∧
    get (buildFullJSON [(ofS "created_at", JSVal.str (ofS "X"))] JSVal.jnull (ofS "NOW"))
        (ofS "created_at") = some (JSVal.str (ofS "NOW")) ∧
    JSVal.str (ofS "NOW") ≠ JSVal.str (ofS "X") := by
  decide

/-- C9 (amended: caller values win on every key except `created_at`, which
is always the assembly-time timestamp, and `embedding`, which the truthy
embedding argument overrides; `embedding` is present exactly when the
argument is truthy or the caller supplied it).  The timestamp read is the
explicit `now` parameter. -/
theorem buildFullJSON_characterization (fields : ObjMap) (embedding : JSVal) (now : Str)
    (hnd : (fields.map Prod.fst).Nodup) :
    (∀ k v, get fields k = some v → k ≠ ofS "created_at" →
        (embedding.truthy = true → k ≠ ofS "embedding") →
        get (buildFullJSON fields embedding now) k = some v) ∧
    (get fields (ofS "encoding") = none →
        get (buildFullJSON fields embedding now) (ofS "encoding") =
          some (JSVal.str (ofS "zero-gravity"))) ∧
    (get fields (ofS "version") = none →
        get (buildFullJSON fields embedding now) (ofS "version") =
          some (JSVal.str (ofS "0.1"))) ∧
    (get (buildFullJSON fields embedding now) (ofS "created_at") =
        some (JSVal.str now)) ∧
    (embedding.truthy = true →
        get (buildFullJSON fields embedding now) (ofS "embedding") = some embedding) ∧
    (embedding.truthy = false →
        get (buildFullJSON fields embedding now) (ofS "embedding") =
          get fields (ofS "embedding")) := by
  have hbase : ∀ k, get [(ofS "encoding", JSVal.str (ofS "zero-gravity")),
      (ofS "version", JSVal.str (ofS "0.1"))] k =
      (if k = ofS "encoding" then some (JSVal.str (ofS "zero-gravity"))
       else if k = ofS "version" then some (JSVal.str (ofS "0.1")) else none) := by
    intro k
    unfold get
    by_cases h1 : k = ofS "encoding"
    · subst h1
      rw [List.find?_cons_of_pos _ (by simp), if_pos rfl]
      rfl
    · rw [List.find?_cons_of_neg _ (by simpa using fun h => h1 h.symm), if_neg h1]
      by_cases h2 : k = ofS "version"
      · subst h2
        rw [List.find?_cons_of_pos _ (by simp), if_pos rfl]
        rfl
      · rw [List.find?_cons_of_neg _ (by simpa using fun h => h2 h.symm), if_neg h2]
        rfl
  have hR : ∀ k, get (buildFullJSON fields embedding now) k =
      (if embedding.truthy ∧ k = ofS "embedding" then some embedding
       else if k = ofS "created_at" then some (JSVal.str now)
       else (get fields k).or
         (if k = ofS "encoding" then some (JSVal.str (ofS "zero-gravity"))
          else if k = ofS "version" then some (JSVal.str (ofS "0.1")) else none)) := by
    intro k
    unfold buildFullJSON
    by_cases he : embedding.truthy = true
    · rw [if_pos he]
      by_cases hemb : k = ofS "embedding"
      · rw [get_setKey, if_pos hemb, if_pos ⟨he, hemb⟩]
      · rw [get_setKey, if_neg hemb,
          if_neg (by rintro ⟨_, h⟩; exact hemb h)]
        by_cases hc : k = ofS "created_at"
        · rw [get_setKey, if_pos hc, if_pos hc]
        · rw [get_setKey, if_neg hc, if_neg hc, get_foldl_setKey fields _ k hnd, hbase]
    · rw [if_neg he]
      rw [if_neg (by rintro ⟨h, _⟩; exact he h)]
      by_cases hc : k = ofS "created_at"
      · rw [get_setKey, if_pos hc, if_pos hc]
      · rw [get_setKey, if_neg hc, if_neg hc, get_foldl_setKey fields _ k hnd, hbase]
  refine ⟨?_, ?_, ?_, ?_, ?_, ?_⟩
  · intro k v hv hca hemb
    rw [hR k, if_neg (fun h : embedding.truthy = true ∧ k = ofS "embedding" => hemb h.1 h.2),
      if_neg hca, hv, Option.or_some]
  · intro h
    rw [hR, if_neg (by rintro ⟨_, h'⟩; exact absurd h' (by decide)),
      if_neg (by decide), h, Option.none_or, if_pos rfl]
  · intro h
    rw [hR, if_neg (by rintro ⟨_, h'⟩; exact absurd h' (by decide)),
      if_neg (by decide), h, Option.none_or, if_neg (by decide), if_pos rfl]
  · rw [hR, if_neg (by rintro ⟨_, h'⟩; exact absurd h' (by decide)), if_pos rfl]
  · intro h
    rw [hR, if_pos ⟨h, rfl⟩]
  · intro h
    rw [hR, if_neg (by rintro ⟨h', _⟩; rw [h] at h'; exact Bool.false_ne_true h'),
      if_neg (by decide), if_neg (by decide), if_neg (by decide), Option.or_none]

/-- Witness for the amended C9 at a concrete map whose keys collide with
the envelope. -/
theorem buildFullJSON_characterization_witness :
    get (buildFullJSON [(ofS "encoding", JSVal.str (ofS "mine")), (ofS "id", JSVal.str (ofS "a"))]
        (JSVal.str (ofS "E")) (ofS "NOW")) (ofS "encoding") = some (JSVal.str (ofS "mine")) ∧
    get (buildFullJSON [(ofS "encoding", JSVal.str (ofS "mine")), (ofS "id", JSVal.str (ofS "a"))]
        (JSVal.str (ofS "E")) (ofS "NOW")) (ofS "created_at") = some (JSVal.str (ofS "NOW")) ∧
    get (buildFullJSON [(ofS "encoding", JSVal.str (ofS "mine")), (ofS "id", JSVal.str (ofS "a"))]
        (JSVal.str (ofS "E")) (ofS "NOW")) (ofS "embedding") = some (JSVal.str (ofS "E")) := by
  have h := buildFullJSON_characterization
    [(ofS "encoding", JSVal.str (ofS "mine")), (ofS "id", JSVal.str (ofS "a"))]
    (JSVal.str (ofS "E")) (ofS "NOW") (by decide)
  exact ⟨h.1 (ofS "encoding") (JSVal.str (ofS "mine")) (by decide) (by decide)
      (fun _ => by decide),
    h.2.2.2.1, h.2.2.2.2.1 (by decide)⟩

/-! ## String-level lemmas: `jsTrim`, `jsIndexOf`, `splitLines`, `joinLines`,
`stripQuotes`, `firstOcc` -/

theorem dropWhile_eq_self_of_head {p : Char → Bool} {l : List Char}
    (h : ∀ c, l.head? = some c → ¬ p c = true) : l.dropWhile p = l := by
  cases l with
  | nil => rfl
  | cons a t => exact List.dropWhile_cons_of_neg (h a rfl)

theorem jsTrim_eq_self {s : Str}
    (h1 : ∀ c, s.head? = some c → ¬ c.isWhitespace = true)
    (h2 : ∀ c, s.getLast? = some c → ¬ c.isWhitespace = true) : jsTrim s = s := by
  unfold jsTrim
  rw [dropWhile_eq_self_of_head h1,
    dropWhile_eq_self_of_head (fun c hc => h2 c (by rwa [List.getLast?_eq_head?_reverse])),
    List.reverse_reverse]

theorem jsTrim_cons_ws {c : Char} {s : Str} (h : c.isWhitespace = true) :
    jsTrim (c :: s) = jsTrim s := by
  unfold jsTrim
  rw [List.dropWhile_cons_of_pos h]

theorem jsIndexOf_eq_none_of_not_mem {c : Char} {s : Str} (h : c ∉ s) :
    jsIndexOf c s = none := by
  induction s with
  | nil => rfl
  | cons a t ih =>
    unfold jsIndexOf
    rw [if_neg (fun he : a = c => h (by rw [← he]; exact List.mem_cons_self a t)),
      ih (fun hm => h (List.mem_cons_of_mem a hm))]
    rfl

theorem jsIndexOf_append_cons {c : Char} {p r : Str} (h : c ∉ p) :
    jsIndexOf c (p ++ c :: r) = some p.length := by
  induction p with
  | nil => simp [jsIndexOf]
  | cons a t ih =>
    rw [List.cons_append]
    unfold jsIndexOf
    rw [if_neg (fun he : a = c => h (by rw [← he]; exact List.mem_cons_self a t)),
      ih (fun hm => h (List.mem_cons_of_mem a hm))]
    rfl

theorem splitLines_cons (c : Char) (rest : Str) :
    splitLines (c :: rest) =
      match splitLines rest with
      | [] => [[c]]
      | h :: t => if c = '\n' then [] :: h :: t else (c :: h) :: t := rfl

theorem splitLines_ne_nil (s : Str) : splitLines s ≠ [] := by
  induction s with
  | nil => simp [splitLines]
  | cons a t ih =>
    rw [splitLines_cons]
    rcases hu : splitLines t with _ | ⟨x, y⟩
    · exact absurd hu ih
    · dsimp only
      split <;> simp

theorem splitLines_single {l : Str} (h : '\n' ∉ l) : splitLines l = [l] := by
  induction l with
  | nil => rfl
  | cons a t ih =>
    have ht : splitLines t = [t] := ih (fun hm => h (List.mem_cons_of_mem a hm))
    rw [splitLines_cons, ht]
    dsimp only
    rw [if_neg (fun he : a = '\n' => h (by rw [← he]; exact List.mem_cons_self a t))]

theorem splitLines_append {l : Str} (h : '\n' ∉ l) (rest : Str) :
    splitLines (l ++ '\n' :: rest) = l :: splitLines rest := by
  induction l with
  | nil =>
    rw [List.nil_append, splitLines_cons]
    rcases hs : splitLines rest with _ | ⟨a, t⟩
    · exact absurd hs (splitLines_ne_nil rest)
    · dsimp only
      rw [if_pos rfl]
  | cons a t ih =>
    have ht := ih (fun hm => h (List.mem_cons_of_mem a hm))
    rw [List.cons_append, splitLines_cons, ht]
    dsimp only
    rw [if_neg (fun he : a = '\n' => h (by rw [← he]; exact List.mem_cons_self a t))]

theorem joinLines_cons {a : Str} {rest : List Str} (h : rest ≠ []) :
    joinLines (a :: rest) = a ++ '\n' :: joinLines rest := by
  cases rest with
  | nil => exact absurd rfl h
  | cons b u => rfl

theorem splitLines_joinLines {lines : List Str} (hne : lines ≠ [])
    (h : ∀ l ∈ lines, '\n' ∉ l) : splitLines (joinLines lines) = lines := by
  induction lines with
  | nil => exact absurd rfl hne
  | cons a rest ih =>
    cases rest with
    | nil => exact splitLines_single (h a (List.mem_cons_self a []))
    | cons b u =>
      rw [joinLines_cons (by simp),
        splitLines_append (h a (List.mem_cons_self a _)),
        ih (by simp) (fun l hl => h l (List.mem_cons_of_mem a hl))]

theorem joinLines_append_single (mid : List Str) (x : Str) (h : mid ≠ []) :
    joinLines (mid ++ [x]) = joinLines mid ++ '\n' :: x := by
  induction mid with
  | nil => exact absurd rfl h
  | cons a rest ih =>
    cases rest with
    | nil => rfl
    | cons b u =>
      rw [List.cons_append, joinLines_cons (by simp), joinLines_cons (by simp),
        ih (by simp)]
      simp

theorem stripQuotes_quoted (v : Str) : stripQuotes ('"' :: v ++ ['"']) = v := by
  have hlast : ('"' :: v ++ ['"']).getLast? = some '"' := by
    rw [show ('"' :: v ++ ['"']) = ('"' :: v) ++ ['"'] by rw [List.cons_append],
      List.getLast?_append]
    rfl
  have htrim : jsTrim ('"' :: v ++ ['"']) = '"' :: v ++ ['"'] :=
    jsTrim_eq_self
      (fun c hc => by
        rw [show ('"' :: v ++ ['"']).head? = some '"' from rfl] at hc
        injection hc with hc
        subst hc
        decide)
      (fun c hc => by
        rw [hlast] at hc
        injection hc with hc
        subst hc
        decide)
  have hpre : jsStartsWith (ofS "\"") ('"' :: v ++ ['"']) = true := by
    simp [jsStartsWith, ofS, List.isPrefixOf]
  have hlen : ('"' :: v ++ ['"']).length - 1 = ('"' :: v).length := by
    rw [show ('"' :: v ++ ['"']) = ('"' :: v) ++ ['"'] by rw [List.cons_append],
      List.length_append]
    simp
  unfold stripQuotes
  rw [htrim]
  dsimp only
  rw [if_pos (by rw [hpre, hlast]; simp)]
  rw [hlen,
    show ('"' :: v ++ ['"']) = ('"' :: v) ++ ['"'] by rw [List.cons_append],
    List.take_left, List.drop_one]
  rfl

theorem firstOcc_of_isPrefixOf {pat s : Str} (h : pat.isPrefixOf s = true) :
    firstOcc pat s = some 0 := by
  cases s with
  | nil =>
    cases pat with
    | nil => rfl
    | cons a t => exact absurd h (by simp [List.isPrefixOf])
  | cons a t =>
    unfold firstOcc
    rw [if_pos h]

theorem firstOcc_append_right {pat s1 s2 : Str} (hpre : pat.isPrefixOf s2 = true)
    (h : ∀ j, j < s1.length → pat.isPrefixOf (s1.drop j ++ s2) = false) :
    firstOcc pat (s1 ++ s2) = some s1.length := by
  induction s1 with
  | nil => simpa using firstOcc_of_isPrefixOf hpre
  | cons c t ih =>
    rw [List.cons_append]
    unfold firstOcc
    rw [if_neg (by
      have h0 := h 0 (by simp)
      rw [List.drop_zero, List.cons_append] at h0
      simp [h0])]
    rw [ih (fun j hj => by
      have := h (j + 1) (by simp at hj ⊢; omega)
      simpa using this)]
    rfl

theorem firstOcc_cons (pat : Str) (a : Char) (rest : Str) :
    firstOcc pat (a :: rest) =
      if pat.isPrefixOf (a :: rest) then some 0
      else (firstOcc pat rest).map (· + 1) := rfl

theorem firstOcc_eq_some_spec {pat s : Str} {i : Nat} (h : firstOcc pat s = some i) :
    pat.isPrefixOf (s.drop i) = true ∧
      ∀ j, j < i → pat.isPrefixOf (s.drop j) = false := by
  induction s generalizing i with
  | nil =>
    unfold firstOcc at h
    split at h
    · injection h with h
      subst h
      refine ⟨?_, fun j hj => absurd hj (by omega)⟩
      rw [List.drop_nil]
      cases pat with
      | nil => rfl
      | cons a t => simp_all
    · exact absurd h (by simp)
  | cons c t ih =>
    rw [firstOcc_cons] at h
    by_cases hp : pat.isPrefixOf (c :: t) = true
    · rw [if_pos hp] at h
      injection h with h
      subst h
      exact ⟨hp, fun j hj => absurd hj (by omega)⟩
    · rw [if_neg hp] at h
      rcases Option.map_eq_some'.mp h with ⟨i', hi', hii⟩
      subst hii
      obtain ⟨h1, h2⟩ := ih hi'
      refine ⟨h1, fun j hj => ?_⟩
      cases j with
      | zero =>
        rw [List.drop_zero]
        exact Bool.not_eq_true _ ▸ hp
      | succ j' => exact h2 j' (by omega)

theorem firstOcc_eq_none_spec {pat s : Str} (h : firstOcc pat s = none) :
    ∀ j, pat.isPrefixOf (s.drop j) = false := by
  induction s with
  | nil =>
    intro j
    unfold firstOcc at h
    split at h
    · exact absurd h (by simp)
    · rw [List.drop_nil]
      cases pat with
      | nil => simp_all
      | cons a t => rfl
  | cons c t ih =>
    intro j
    rw [firstOcc_cons] at h
    by_cases hp : pat.isPrefixOf (c :: t) = true
    · rw [if_pos hp] at h
      exact absurd h (by simp)
    · rw [if_neg hp] at h
      cases j with
      | zero =>
        rw [List.drop_zero]
        exact Bool.not_eq_true _ ▸ hp
      | succ j' =>
        exact ih (by simpa using h) j'

/-! ## Step equations for `parseLinesAux` -/

theorem parseLinesAux_nil (fields : ObjMap) : parseLinesAux fields [] = fields := by
  rw [parseLinesAux]

theorem parseLinesAux_cons (fields : ObjMap) (line : Str) (rest : List Str) :
    parseLinesAux fields (line :: rest) =
      (let trimmed := jsTrim line
       if trimmed.isEmpty then parseLinesAux fields rest
       else
         match jsIndexOf ':' trimmed with
         | none => parseLinesAux fields rest
         | some colonIdx =>
           let key := jsTrim (trimmed.take colonIdx)
           let afterColon := jsTrim (trimmed.drop (colonIdx + 1))
           if key.isEmpty then parseLinesAux fields rest
           else if afterColon.isEmpty then
             let p := takeItems rest
             if p.1.isEmpty then parseLinesAux fields p.2
             else parseLinesAux (setKey fields key (JSVal.arr p.1)) p.2
           else parseLinesAux (setKey fields key (JSVal.str (stripQuotes afterColon))) rest) := by
  rw [parseLinesAux]

theorem parseLinesAux_blank (fields : ObjMap) (line : Str) (rest : List Str)
    (h1 : (jsTrim line).isEmpty = true) :
    parseLinesAux fields (line :: rest) = parseLinesAux fields rest := by
  rw [parseLinesAux_cons]
  dsimp only
  rw [if_pos h1]

theorem parseLinesAux_nocolon (fields : ObjMap) (line : Str) (rest : List Str)
    (h1 : ¬(jsTrim line).isEmpty = true)
    (h2 : jsIndexOf ':' (jsTrim line) = none) :
    parseLinesAux fields (line :: rest) = parseLinesAux fields rest := by
  rw [parseLinesAux_cons]
  dsimp only
  rw [if_neg h1, h2]

theorem parseLinesAux_emptykey (fields : ObjMap) (line : Str) (rest : List Str)
    (colonIdx : Nat)
    (h1 : ¬(jsTrim line).isEmpty = true)
    (h2 : jsIndexOf ':' (jsTrim line) = some colonIdx)
    (h3 : (jsTrim ((jsTrim line).take colonIdx)).isEmpty = true) :
    parseLinesAux fields (line :: rest) = parseLinesAux fields rest := by
  rw [parseLinesAux_cons]
  dsimp only
  rw [if_neg h1, h2]
  dsimp only
  rw [if_pos h3]

theorem parseLinesAux_scalar (fields : ObjMap) (line : Str) (rest : List Str)
    (colonIdx : Nat)
    (h1 : ¬(jsTrim line).isEmpty = true)
    (h2 : jsIndexOf ':' (jsTrim line) = some colonIdx)
    (h3 : ¬(jsTrim ((jsTrim line).take colonIdx)).isEmpty = true)
    (h4 : ¬(jsTrim ((jsTrim line).drop (colonIdx + 1))).isEmpty = true) :
    parseLinesAux fields (line :: rest) =
      parseLinesAux (setKey fields (jsTrim ((jsTrim line).take colonIdx))
        (JSVal.str (stripQuotes (jsTrim ((jsTrim line).drop (colonIdx + 1)))))) rest := by
  rw [parseLinesAux_cons]
  dsimp only
  rw [if_neg h1, h2]
  dsimp only
  rw [if_neg h3, if_neg h4]

theorem parseLinesAux_list_empty (fields : ObjMap) (line : Str) (rest : List Str)
    (colonIdx : Nat)
    (h1 : ¬(jsTrim line).isEmpty = true)
    (h2 : jsIndexOf ':' (jsTrim line) = some colonIdx)
    (h3 : ¬(jsTrim ((jsTrim line).take colonIdx)).isEmpty = true)
    (h4 : (jsTrim ((jsTrim line).drop (colonIdx + 1))).isEmpty = true)
    (h5 : (takeItems rest).1.isEmpty = true) :
    parseLinesAux fields (line :: rest) = parseLinesAux fields (takeItems rest).2 := by
  rw [parseLinesAux_cons]
  dsimp only
  rw [if_neg h1, h2]
  dsimp only
  rw [if_neg h3, if_pos h4, if_pos h5]

theorem parseLinesAux_list (fields : ObjMap) (line : Str) (rest : List Str)
    (colonIdx : Nat)
    (h1 : ¬(jsTrim line).isEmpty = true)
    (h2 : jsIndexOf ':' (jsTrim line) = some colonIdx)
    (h3 : ¬(jsTrim ((jsTrim line).take colonIdx)).isEmpty = true)
    (h4 : (jsTrim ((jsTrim line).drop (colonIdx + 1))).isEmpty = true)
    (h5 : ¬(takeItems rest).1.isEmpty = true) :
    parseLinesAux fields (line :: rest) =
      parseLinesAux (setKey fields (jsTrim ((jsTrim line).take colonIdx))
        (JSVal.arr (takeItems rest).1)) (takeItems rest).2 := by
  rw [parseLinesAux_cons]
  dsimp only
  rw [if_neg h1, h2]
  dsimp only
  rw [if_neg h3, if_pos h4, if_neg h5]

theorem parseLinesFuel_eq (fields : ObjMap) (lines : List Str) :
    ∀ fuel, lines.length ≤ fuel → parseLinesFuel fuel fields lines = parseLinesAux fields lines := by
  induction fields, lines using parseLinesAux.induct with
  | case1 fields =>
    intro fuel _
    rw [parseLinesAux_nil]
    cases fuel <;> rfl
  | case2 fields line rest trimmed h1 ih =>
    intro fuel hf
    cases fuel with
    | zero => exact absurd hf (by simp)
    | succ fuel' =>
      rw [parseLinesAux_blank fields line rest h1, ← ih fuel' (by simpa using Nat.le_of_succ_le_succ hf)]
      show (let t := jsTrim line; if t.isEmpty then parseLinesFuel fuel' fields rest else _) = _
      dsimp only
      rw [if_pos h1]
  | case3 fields line rest trimmed h1 h2 ih =>
    intro fuel hf
    cases fuel with
    | zero => exact absurd hf (by simp)
    | succ fuel' =>
      rw [parseLinesAux_nocolon fields line rest h1 h2, ← ih fuel' (by simpa using Nat.le_of_succ_le_succ hf)]
      show (let t := jsTrim line; if t.isEmpty then parseLinesFuel fuel' fields rest else _) = _
      dsimp only
      rw [if_neg h1, h2]
  | case4 fields line rest trimmed h1 colonIdx h2 key h3 ih =>
    intro fuel hf
    cases fuel with
    | zero => exact absurd hf (by simp)
    | succ fuel' =>
      rw [parseLinesAux_emptykey fields line rest colonIdx h1 h2 h3,
        ← ih fuel' (by simpa using Nat.le_of_succ_le_succ hf)]
      show (let t := jsTrim line; if t.isEmpty then parseLinesFuel fuel' fields rest else _) = _
      dsimp only
      rw [if_neg h1, h2]
      dsimp only
      rw [if_pos h3]
  | case5 fields line rest trimmed h1 colonIdx h2 key afterColon h3 h4 p h5 ih =>
    intro fuel hf
    cases fuel with
    | zero => exact absurd hf (by simp)
    | succ fuel' =>
      rw [parseLinesAux_list_empty fields line rest colonIdx h1 h2 h3 h4 h5,
        ← ih fuel' (Nat.le_trans (takeItems_rest_length rest)
          (by simpa using Nat.le_of_succ_le_succ hf))]
      show (let t := jsTrim line; if t.isEmpty then parseLinesFuel fuel' fields rest else _) = _
      dsimp only
      rw [if_neg h1, h2]
      dsimp only
      rw [if_neg h3, if_pos h4, if_pos h5]
  | case6 fields line rest trimmed h1 colonIdx h2 key afterColon h3 h4 p h5 ih =>
    intro fuel hf
    cases fuel with
    | zero => exact absurd hf (by simp)
    | succ fuel' =>
      rw [parseLinesAux_list fields line rest colonIdx h1 h2 h3 h4 h5,
        ← ih fuel' (Nat.le_trans (takeItems_rest_length rest)
          (by simpa using Nat.le_of_succ_le_succ hf))]
      show (let t := jsTrim line; if t.isEmpty then parseLinesFuel fuel' fields rest else _) = _
      dsimp only
      rw [if_neg h1, h2]
      dsimp only
      rw [if_neg h3, if_pos h4, if_neg h5]
  | case7 fields line rest trimmed h1 colonIdx h2 key afterColon h3 h4 ih =>
    intro fuel hf
    cases fuel with
    | zero => exact absurd hf (by simp)
    | succ fuel' =>
      rw [parseLinesAux_scalar fields line rest colonIdx h1 h2 h3 h4,
        ← ih fuel' (by simpa using Nat.le_of_succ_le_succ hf)]
      show (let t := jsTrim line; if t.isEmpty then parseLinesFuel fuel' fields rest else _) = _
      dsimp only
      rw [if_neg h1, h2]
      dsimp only
      rw [if_neg h3, if_neg h4]

/-- `parseBlock` as a kernel-computable function of the body. -/
theorem parseBlock_eval (body : Str) :
    parseBlock body = parseLinesFuel (splitLines body).length [] (splitLines body) := by
  unfold parseBlock
  rw [parseLinesFuel_eq [] (splitLines body) (splitLines body).length (Nat.le_refl _)]

/-! ## C5: list values produced by `parseBlock` are never empty -/

theorem setKey_preserves_arrinv (m : ObjMap) (k : Str) (v : JSVal)
    (hacc : ∀ k' l, get m k' = some (JSVal.arr l) → l ≠ [])
    (hv : ∀ l, v = JSVal.arr l → l ≠ []) :
    ∀ k' l, get (setKey m k v) k' = some (JSVal.arr l) → l ≠ [] := by
  intro k' l h
  rw [get_setKey] at h
  split at h
  · injection h with h
    exact hv l h
  · exact hacc k' l h

theorem parseLinesAux_arr_nonempty (fields : ObjMap) (lines : List Str) :
    (∀ k l, get fields k = some (JSVal.arr l) → l ≠ []) →
    ∀ k l, get (parseLinesAux fields lines) k = some (JSVal.arr l) → l ≠ [] := by
  induction fields, lines using parseLinesAux.induct with
  | case1 fields =>
    rw [parseLinesAux_nil]
    exact fun h => h
  | case2 fields line rest trimmed h1 ih =>
    intro hacc
    rw [parseLinesAux_blank fields line rest h1]
    exact ih hacc
  | case3 fields line rest trimmed h1 h2 ih =>
    intro hacc
    rw [parseLinesAux_nocolon fields line rest h1 h2]
    exact ih hacc
  | case4 fields line rest trimmed h1 colonIdx h2 key h3 ih =>
    intro hacc
    rw [parseLinesAux_emptykey fields line rest colonIdx h1 h2 h3]
    exact ih hacc
  | case5 fields line rest trimmed h1 colonIdx h2 key afterColon h3 h4 p h5 ih =>
    intro hacc
    rw [parseLinesAux_list_empty fields line rest colonIdx h1 h2 h3 h4 h5]
    exact ih hacc
  | case6 fields line rest trimmed h1 colonIdx h2 key afterColon h3 h4 p h5 ih =>
    intro hacc
    rw [parseLinesAux_list fields line rest colonIdx h1 h2 h3 h4 h5]
    apply ih
    apply setKey_preserves_arrinv _ _ _ hacc
    intro l hl
    injection hl with hl
    rw [← hl]
    simpa using h5
  | case7 fields line rest trimmed h1 colonIdx h2 key afterColon h3 h4 ih =>
    intro hacc
    rw [parseLinesAux_scalar fields line rest colonIdx h1 h2 h3 h4]
    apply ih
    apply setKey_preserves_arrinv _ _ _ hacc
    intro l hl
    exact absurd hl (by simp)

theorem parseBlock_header_only (key : Str) (hne : key ≠ [])
    (hh : ∀ c, key.head? = some c → ¬c.isWhitespace = true)
    (hl : ∀ c, key.getLast? = some c → ¬c.isWhitespace = true)
    (hc : ':' ∉ key) (hn : '\n' ∉ key) :
    parseBlock (key ++ [':']) = [] := by
  obtain ⟨c0, t, rfl⟩ : ∃ c0 t, key = c0 :: t := by
    cases key with
    | nil => exact absurd rfl hne
    | cons a b => exact ⟨a, b, rfl⟩
  unfold parseBlock
  have hsplit : splitLines (c0 :: t ++ [':']) = [c0 :: t ++ [':']] :=
    splitLines_single (by
      intro hm
      rcases List.mem_cons.mp hm with h | h
      · exact hn (h ▸ List.mem_cons_self c0 t)
      · rcases List.mem_append.mp h with h' | h'
        · exact hn (List.mem_cons_of_mem c0 h')
        · rw [List.mem_singleton] at h'
          exact absurd h' (by decide))
  rw [hsplit]
  have hgl : (c0 :: t ++ [':']).getLast? = some ':' := by
    rw [show (c0 :: t ++ [':']) = (c0 :: t) ++ [':'] by rw [List.cons_append],
      List.getLast?_append]
    rfl
  have htrim : jsTrim (c0 :: t ++ [':']) = c0 :: t ++ [':'] :=
    jsTrim_eq_self
      (fun c hcc => by
        rw [show (c0 :: t ++ [':']).head? = some c0 from rfl] at hcc
        injection hcc with hcc
        subst hcc
        exact hh c0 rfl)
      (fun c hcc => by
        rw [hgl] at hcc
        injection hcc with hcc
        subst hcc
        decide)
  have hkeytrim : jsTrim (c0 :: t) = c0 :: t := jsTrim_eq_self hh hl
  have h1 : ¬(jsTrim (c0 :: t ++ [':'])).isEmpty = true := by
    rw [htrim]
    simp
  have h2 : jsIndexOf ':' (jsTrim (c0 :: t ++ [':'])) = some (c0 :: t).length := by
    rw [htrim, show (c0 :: t ++ [':']) = (c0 :: t) ++ ':' :: [] by rw [List.cons_append]]
    exact jsIndexOf_append_cons hc
  have h3 : ¬(jsTrim ((jsTrim (c0 :: t ++ [':'])).take (c0 :: t).length)).isEmpty = true := by
    rw [htrim, show (c0 :: t ++ [':']) = (c0 :: t) ++ [':'] by rw [List.cons_append],
      List.take_left, hkeytrim]
    simp
  have h4 : (jsTrim ((jsTrim (c0 :: t ++ [':'])).drop ((c0 :: t).length + 1))).isEmpty = true := by
    rw [htrim,
      show (c0 :: t).length + 1 = (c0 :: t ++ [':']).length by simp,
      List.drop_length]
    rfl
  rw [parseLinesAux_list_empty [] (c0 :: t ++ [':']) [] (c0 :: t).length h1 h2 h3 h4 rfl,
    show (takeItems []).2 = [] from rfl, parseLinesAux_nil]

/-- Counterexample to C5 as stated: in the body `a: "x"` + newline + `a:`,
the key `a` is written as a list header with zero item lines, yet it is
not absent from the returned map — the earlier scalar binding survives. -/
theorem parseBlock_itemless_header_key_present :
    splitLines (ofS "a: \"x\"\na:") = [ofS "a: \"x\"", ofS "a:"] ∧
    get (parseBlock (ofS "a: \"x\"\na:")) (ofS "a") = some (JSVal.str (ofS "x")) := by
  rw [parseBlock_eval]
  decide

/-- C5 (amended: the itemless header contributes no binding, so the key is
absent unless some other line binds it).  Every list value in a map
returned by `parseBlock` has length at least 1; and a body consisting of a
lone list header `key:` with zero item lines yields the empty map — the
key is not bound to an empty list, and no error is reported (the parser
has no error channel). -/
theorem parseBlock_list_invariant :
    (∀ body k l, get (parseBlock body) k = some (JSVal.arr l) → 1 ≤ l.length) ∧
    (∀ key : Str, key ≠ [] →
      (∀ c, key.head? = some c → ¬c.isWhitespace = true) →
      (∀ c, key.getLast? = some c → ¬c.isWhitespace = true) →
      ':' ∉ key → '\n' ∉ key →
      parseBlock (key ++ [':']) = []) := by
  constructor
  · intro body k l h
    have hinv := parseLinesAux_arr_nonempty [] (splitLines body)
      (fun k' l' h' => absurd h' (by rw [get_nil]; exact Option.noConfusion))
    have := hinv k l h
    cases l with
    | nil => exact absurd rfl this
    | cons a t => simp
  · exact parseBlock_header_only

/-- Witness for the amended C5: a parsed two-item list has length ≥ 1, and
the lone header `indexes:` parses to the empty map. -/
theorem parseBlock_list_invariant_witness :
    1 ≤ [ofS "alpha", ofS "beta"].length ∧ parseBlock (ofS "indexes" ++ [':']) = [] :=
  ⟨parseBlock_list_invariant.1 (ofS "indexes:\n  - \"alpha\"\n  - \"beta\"")
      (ofS "indexes") [ofS "alpha", ofS "beta"] (by rw [parseBlock_eval]; decide),
    parseBlock_list_invariant.2 (ofS "indexes") (by decide)
      (fun c hc => by
        injection hc with hc
        subst hc
        decide)
      (fun c hc => by
        rw [show (ofS "indexes").getLast? = some 's' from by decide] at hc
        injection hc with hc
        subst hc
        decide)
      (by decide) (by decide)⟩

/-! ## C3: the shape of `formatStamp` output -/

theorem newline_not_mem_scalarLine {k v : Str} (hk : '\n' ∉ k) (hv : '\n' ∉ v) :
    '\n' ∉ scalarLine k v := by
  intro hm
  unfold scalarLine at hm
  have c1 : ¬('\n' = ':') := by decide
  have c2 : ¬('\n' = ' ') := by decide
  have c3 : ¬('\n' = '"') := by decide
  simp only [List.mem_append, List.mem_cons, List.mem_singleton, List.not_mem_nil] at hm
  tauto

theorem newline_not_mem_itemLine {x : Str} (hx : '\n' ∉ x) : '\n' ∉ itemLine x := by
  intro hm
  unfold itemLine at hm
  have c1 : '\n' ∉ ofS "  - \"" := by decide
  have c2 : '\n' ∉ ofS "\"" := by decide
  simp only [List.mem_append] at hm
  tauto

/-- Counterexample to C3 as stated: `formatStamp` on the empty field map
still emits the `encoding: "zero-gravity"` and `version: "0.1"` lines,
although neither key is present in the input map. -/
theorem formatStamp_emits_encoding_unconditionally :
    get ([] : ObjMap) (ofS "encoding") = none ∧
    get ([] : ObjMap) (ofS "version") = none ∧
    formatStamp [] (ofS "0.1") =
      ofS "---BEGIN ZERO GRAVITY---\nencoding: \"zero-gravity\"\nversion: \"0.1\"\n---END ZERO GRAVITY---" := by
  decide

/-- C3 (amended: the `encoding` and `version` lines are emitted
unconditionally — `encoding` always renders the constant
`"zero-gravity"` and `version` renders the version parameter — while only
`title` and `intent` are conditional on being present and truthy).  Under
the no-newline side conditions, the lines of the rendered text are
exactly: the BEGIN marker; `encoding: "zero-gravity"`; the version line;
a `title: "value"` line iff `title` is present and truthy; an
`intent: "value"` line iff `intent` is present and truthy; if `indexes`
is a non-empty array, an `indexes:` header followed by one `  - "item"`
line per element in original order; and the END marker. -/
theorem formatStamp_shape (fields : ObjMap) (version : Str)
    (hv : '\n' ∉ version)
    (ht : ∀ v, get fields (ofS "title") = some v → v.truthy = true → '\n' ∉ v.jsToString)
    (hi : ∀ v, get fields (ofS "intent") = some v → v.truthy = true → '\n' ∉ v.jsToString)
    (hx : ∀ l x, get fields (ofS "indexes") = some (JSVal.arr l) → x ∈ l → '\n' ∉ x) :
    splitLines (formatStamp fields version) =
      [ofS "---BEGIN ZERO GRAVITY---", ofS "encoding: \"zero-gravity\"",
        scalarLine (ofS "version") version]
      ++ (if truthyO (get fields (ofS "title")) then
            [scalarLine (ofS "title") (jsToStringO (get fields (ofS "title")))] else [])
      ++ (if truthyO (get fields (ofS "intent")) then
            [scalarLine (ofS "intent") (jsToStringO (get fields (ofS "intent")))] else [])
      ++ (match get fields (ofS "indexes") with
          | some (JSVal.arr l) =>
            if l.length > 0 then (ofS "indexes:") :: l.map itemLine else []
          | _ => [])
      ++ [ofS "---END ZERO GRAVITY---"] := by
  unfold formatStamp
  rw [splitLines_joinLines]
  · rfl
  · unfold formatStampLines
    simp
  · intro l hl
    unfold formatStampLines at hl
    rcases List.mem_append.mp hl with h1 | h2
    · rcases List.mem_append.mp h1 with h1 | h1
      · rcases List.mem_append.mp h1 with h1 | h1
        · rcases List.mem_append.mp h1 with h1 | h1
          · rcases List.mem_cons.mp h1 with h | h
            · subst h; decide
            · rcases List.mem_cons.mp h with h | h
              · subst h; decide
              · rw [List.mem_singleton] at h
                subst h
                exact newline_not_mem_scalarLine (by decide) hv
          · by_cases htr : truthyO (get fields (ofS "title")) = true
            · rw [if_pos htr] at h1
              rw [List.mem_singleton] at h1
              subst h1
              rcases hg : get fields (ofS "title") with _ | v
              · rw [hg] at htr
                exact absurd htr (by decide)
              · rw [hg] at htr
                exact newline_not_mem_scalarLine (by decide) (ht v hg htr)
            · rw [if_neg htr] at h1
              exact absurd h1 (List.not_mem_nil l)
        · by_cases htr : truthyO (get fields (ofS "intent")) = true
          · rw [if_pos htr] at h1
            rw [List.mem_singleton] at h1
            subst h1
            rcases hg : get fields (ofS "intent") with _ | v
            · rw [hg] at htr
              exact absurd htr (by decide)
            · rw [hg] at htr
              exact newline_not_mem_scalarLine (by decide) (hi v hg htr)
          · rw [if_neg htr] at h1
            exact absurd h1 (List.not_mem_nil l)
      · rcases hg : get fields (ofS "indexes") with _ | v
        · rw [hg] at h1
          exact absurd h1 (List.not_mem_nil l)
        · rw [hg] at h1
          rcases v with s | il | _
          · exact absurd h1 (List.not_mem_nil l)
          · dsimp only at h1
            by_cases hlen : il.length > 0
            · rw [if_pos hlen] at h1
              rcases List.mem_cons.mp h1 with h | h
              · subst h; decide
              · obtain ⟨x, hxm, hxe⟩ := List.mem_map.mp h
                subst hxe
                exact newline_not_mem_itemLine (hx il x hg hxm)
            · rw [if_neg hlen] at h1
              exact absurd h1 (List.not_mem_nil l)
          · exact absurd h1 (List.not_mem_nil l)
    · rw [List.mem_singleton] at h2
      subst h2
      decide

/-- Witness for the amended C3 at a concrete map with `title` and a
two-element `indexes` list but no `intent`. -/
theorem formatStamp_shape_witness :
    splitLines (formatStamp [(ofS "title", JSVal.str (ofS "T")),
        (ofS "indexes", JSVal.arr [ofS "a", ofS "b"])] (ofS "0.1")) =
      [ofS "---BEGIN ZERO GRAVITY---", ofS "encoding: \"zero-gravity\"",
        ofS "version: \"0.1\"", ofS "title: \"T\"", ofS "indexes:",
        ofS "  - \"a\"", ofS "  - \"b\"", ofS "---END ZERO GRAVITY---"] := by
  have h := formatStamp_shape
    [(ofS "title", JSVal.str (ofS "T")), (ofS "indexes", JSVal.arr [ofS "a", ofS "b"])]
    (ofS "0.1") (by decide)
    (fun v hv _ => by
      rw [show get [(ofS "title", JSVal.str (ofS "T")),
        (ofS "indexes", JSVal.arr [ofS "a", ofS "b"])] (ofS "title") =
          some (JSVal.str (ofS "T")) from by decide] at hv
      injection hv with hv
      subst hv
      decide)
    (fun v hv _ => by
      rw [show get [(ofS "title", JSVal.str (ofS "T")),
        (ofS "indexes", JSVal.arr [ofS "a", ofS "b"])] (ofS "intent") = none from by decide] at hv
      exact absurd hv Option.noConfusion)
    (fun l x hl hm => by
      rw [show get [(ofS "title", JSVal.str (ofS "T")),
        (ofS "indexes", JSVal.arr [ofS "a", ofS "b"])] (ofS "indexes") =
          some (JSVal.arr [ofS "a", ofS "b"]) from by decide] at hl
      injection hl with hl
      injection hl with hl
      subst hl
      rcases List.mem_cons.mp hm with hmm | hmm
      · subst hmm; decide
      · rw [List.mem_singleton] at hmm
        subst hmm
        decide)
  rw [h]
  decide

/-! ## C4: `extractBlock` and the delimiters -/

theorem isPrefixOf_ex {p s : Str} (h : p.isPrefixOf s = true) : ∃ t, s = p ++ t := by
  obtain ⟨t, ht⟩ := List.isPrefixOf_iff_prefix.mp h
  exact ⟨t, ht.symm⟩

theorem isPrefixOf_append_self (p t : Str) : p.isPrefixOf (p ++ t) = true :=
  List.isPrefixOf_iff_prefix.mpr ⟨t, rfl⟩

/-- Counterexample to C4 as stated: a text in which the BEGIN marker does
not occupy a whole line on its own (it is preceded by `x` on the same
line, and the END marker is followed by `junk`) still yields a block. -/
theorem extractBlock_mid_line_marker :
    (extractBlock (ofS "x---BEGIN ZERO GRAVITY---\nb\n---END ZERO GRAVITY---junk")).isSome
        = true ∧
    beginMark ∉ splitLines (ofS "x---BEGIN ZERO GRAVITY---\nb\n---END ZERO GRAVITY---junk") ∧
    endMark ∉ splitLines (ofS "x---BEGIN ZERO GRAVITY---\nb\n---END ZERO GRAVITY---junk") := by
  decide

/-- C4 (amended: the markers need not occupy whole lines — the regex only
requires the BEGIN marker to be immediately followed by a newline and the
END marker to be immediately preceded by one).  Soundness and first-match:
a returned block decomposes the text around
`BEGIN ++ "\n" ++ body ++ "\n" ++ END`, the match starts at the first
position where `BEGIN ++ "\n"` occurs, and the body is minimal (no
earlier `"\n" ++ END` inside it); and when the text contains the BEGIN
marker but every END-marker occurrence lies strictly before every
BEGIN-marker occurrence (in particular when there is no END marker at
all), `extractBlock` returns `none` rather than an error. -/
theorem extractBlock_delimiters (text : Str) :
    (∀ b, extractBlock text = some b →
      b.raw = (beginMark ++ ['\n']) ++ (b.body ++ '\n' :: endMark) ∧
      ∃ pre post, text = pre ++ b.raw ++ post ∧
        (∀ i', i' < pre.length →
          (beginMark ++ ['\n']).isPrefixOf (text.drop i') = false) ∧
        (∀ j', j' < b.body.length →
          ('\n' :: endMark).isPrefixOf
            ((b.body ++ '\n' :: endMark ++ post).drop j') = false)) ∧
    ((∃ i, beginMark.isPrefixOf (text.drop i) = true) →
      (∀ m i, endMark.isPrefixOf (text.drop m) = true →
        beginMark.isPrefixOf (text.drop i) = true → m < i) →
      extractBlock text = none) := by
  constructor
  · intro b hb
    unfold extractBlock at hb
    rcases h1 : firstOcc (beginMark ++ ['\n']) text with _ | i
    · rw [h1] at hb
      exact Option.noConfusion hb
    · rw [h1] at hb
      dsimp only at hb
      rcases h2 : firstOcc ('\n' :: endMark)
          (text.drop (i + (beginMark ++ ['\n']).length)) with _ | j
      · rw [h2] at hb
        exact Option.noConfusion hb
      · rw [h2] at hb
        dsimp only at hb
        injection hb with hb
        subst hb
        obtain ⟨hp1, hfirst1⟩ := firstOcc_eq_some_spec h1
        obtain ⟨hp2, hfirst2⟩ := firstOcc_eq_some_spec h2
        obtain ⟨t1, ht1⟩ := isPrefixOf_ex hp1
        have hafter : text.drop (i + (beginMark ++ ['\n']).length) = t1 := by
          rw [← List.drop_drop, ht1, List.drop_left]
        rw [hafter] at hp2 hfirst2 h2 ⊢
        obtain ⟨t2, ht2⟩ := isPrefixOf_ex hp2
        have hjlen : j < t1.length := by
          by_contra hc
          rw [List.drop_eq_nil_iff.mpr (by omega)] at ht2
          exact absurd ht2.symm (by simp)
        have hilen : i < text.length := by
          by_contra hc
          rw [List.drop_eq_nil_iff.mpr (by omega)] at ht1
          exact absurd ht1.symm (by simp)
        have ht1split : t1 = t1.take j ++ ('\n' :: endMark ++ t2) := by
          conv_lhs => rw [← List.take_append_drop j t1]
          rw [ht2]
        dsimp only
        have hraw : (text.drop i).take
            ((beginMark ++ ['\n']).length + j + ('\n' :: endMark).length) =
            (beginMark ++ ['\n']) ++ (t1.take j ++ '\n' :: endMark) := by
          rw [ht1,
            show (beginMark ++ ['\n']).length + j + ('\n' :: endMark).length =
              (beginMark ++ ['\n']).length + (j + ('\n' :: endMark).length) by omega,
            List.take_add, List.take_left, List.drop_left, List.take_add,
            ht2, List.take_left]
        refine ⟨by rw [hraw], text.take i, t2, ?_, ?_, ?_⟩
        · rw [hraw]
          conv_lhs => rw [← List.take_append_drop i text]
          rw [ht1]
          conv_lhs => rw [ht1split]
          simp [List.append_assoc]
        · intro i' hi'
          rw [List.length_take_of_le (by omega)] at hi'
          exact hfirst1 i' hi'
        · intro j' hj'
          rw [List.length_take_of_le (by omega)] at hj'
          have := hfirst2 j' hj'
          rw [ht1split] at this
          rwa [← List.append_assoc] at this
  · intro ⟨i0, hi0⟩ hsep
    rcases he : extractBlock text with _ | b
    · rfl
    · exfalso
      unfold extractBlock at he
      rcases h1 : firstOcc (beginMark ++ ['\n']) text with _ | i
      · rw [h1] at he
        exact Option.noConfusion he
      · rw [h1] at he
        dsimp only at he
        rcases h2 : firstOcc ('\n' :: endMark)
            (text.drop (i + (beginMark ++ ['\n']).length)) with _ | j
        · rw [h2] at he
          exact Option.noConfusion he
        · obtain ⟨hp1, _⟩ := firstOcc_eq_some_spec h1
          obtain ⟨hp2, _⟩ := firstOcc_eq_some_spec h2
          obtain ⟨t1, ht1⟩ := isPrefixOf_ex hp1
          have hbeg : beginMark.isPrefixOf (text.drop i) = true := by
            rw [ht1, List.append_assoc]
            exact isPrefixOf_append_self _ _
          rw [List.drop_drop] at hp2
          obtain ⟨t2, ht2⟩ := isPrefixOf_ex hp2
          have hend : endMark.isPrefixOf
              (text.drop (i + (beginMark ++ ['\n']).length + j + 1)) = true := by
            have : text.drop (i + (beginMark ++ ['\n']).length + j + 1) =
                (text.drop (i + (beginMark ++ ['\n']).length + j)).drop 1 := by
              rw [List.drop_drop]
            rw [this, ht2]
            rw [show (('\n' :: endMark) ++ t2).drop 1 = endMark ++ t2 from rfl]
            exact isPrefixOf_append_self _ _
          have := hsep _ i hend hbeg
          omega

/-- Witness for the amended C4: a text with a BEGIN marker and no END
marker anywhere yields `none`. -/
theorem extractBlock_delimiters_witness :
    extractBlock (ofS "---BEGIN ZERO GRAVITY---\nno end") = none := by
  have hnone : firstOcc endMark (ofS "---BEGIN ZERO GRAVITY---\nno end") = none := by
    decide
  exact (extractBlock_delimiters (ofS "---BEGIN ZERO GRAVITY---\nno end")).2
    ⟨0, by decide⟩
    (fun m i hm _ => absurd hm (by rw [firstOcc_eq_none_spec hnone m]; exact Bool.false_ne_true))

/-! ## C1: the round-trip law `parseZG ∘ formatStamp` -/

theorem head?_append_left {l m : Str} (h : l ≠ []) : (l ++ m).head? = l.head? := by
  cases l with
  | nil => exact absurd rfl h
  | cons a t => rfl

theorem map_head?_ws {key : Str} (hh : key.head?.map Char.isWhitespace = some false) :
    ∀ c, key.head? = some c → ¬c.isWhitespace = true := by
  intro c hc
  rw [hc, Option.map_some'] at hh
  injection hh with hh
  rw [hh]
  exact Bool.false_ne_true

theorem map_getLast?_ws {key : Str} (hl : key.getLast?.map Char.isWhitespace = some false) :
    ∀ c, key.getLast? = some c → ¬c.isWhitespace = true := by
  intro c hc
  rw [hc, Option.map_some'] at hl
  injection hl with hl
  rw [hl]
  exact Bool.false_ne_true

theorem key_ne_nil_of_head {key : Str} (hh : key.head?.map Char.isWhitespace = some false) :
    key ≠ [] := by
  intro h
  subst h
  exact absurd hh (by simp)

theorem scalarLine_shape1 (key v : Str) :
    scalarLine key v = key ++ (':' :: ' ' :: '"' :: (v ++ ['"'])) := by
  simp [scalarLine]

theorem scalarLine_shape2 (key v : Str) :
    scalarLine key v = (key ++ [':']) ++ (' ' :: '"' :: (v ++ ['"'])) := by
  simp [scalarLine]

theorem scalarLine_shape3 (key v : Str) :
    scalarLine key v = (key ++ ':' :: ' ' :: '"' :: v) ++ ['"'] := by
  simp [scalarLine]

/-- `jsTrim` leaves a rendered scalar line unchanged. -/
theorem jsTrim_scalarLine (key v : Str)
    (hh : key.head?.map Char.isWhitespace = some false) :
    jsTrim (scalarLine key v) = scalarLine key v := by
  apply jsTrim_eq_self
  · intro c hc
    rw [scalarLine_shape1, head?_append_left (key_ne_nil_of_head hh)] at hc
    exact map_head?_ws hh c hc
  · intro c hc
    rw [scalarLine_shape3, List.getLast?_append] at hc
    injection hc with hc
    subst hc
    decide

/-- Parsing one rendered scalar line: it binds `key` to the unquoted
value and continues with the remaining lines. -/
theorem parse_scalar_line (fields : ObjMap) (key v : Str) (rest : List Str)
    (hh : key.head?.map Char.isWhitespace = some false)
    (hl : key.getLast?.map Char.isWhitespace = some false)
    (hcol : ':' ∉ key) :
    parseLinesAux fields (scalarLine key v :: rest) =
      parseLinesAux (setKey fields key (JSVal.str v)) rest := by
  have hne := key_ne_nil_of_head hh
  have htrim := jsTrim_scalarLine key v hh
  have hkeytrim : jsTrim key = key := jsTrim_eq_self (map_head?_ws hh) (map_getLast?_ws hl)
  have h1 : ¬(jsTrim (scalarLine key v)).isEmpty = true := by
    rw [htrim, scalarLine_shape1]
    cases key with
    | nil => exact absurd rfl hne
    | cons a t => simp
  have h2 : jsIndexOf ':' (jsTrim (scalarLine key v)) = some key.length := by
    rw [htrim, scalarLine_shape1]
    exact jsIndexOf_append_cons hcol
  have htake : (jsTrim (scalarLine key v)).take key.length = key := by
    rw [htrim, scalarLine_shape1, List.take_left]
  have h3 : ¬(jsTrim ((jsTrim (scalarLine key v)).take key.length)).isEmpty = true := by
    rw [htake, hkeytrim]
    cases key with
    | nil => exact absurd rfl hne
    | cons a t => simp
  have hdrop : (jsTrim (scalarLine key v)).drop (key.length + 1) = ' ' :: '"' :: (v ++ ['"']) := by
    rw [htrim, scalarLine_shape2, List.drop_left' (by simp)]
  have hafter : jsTrim ((jsTrim (scalarLine key v)).drop (key.length + 1)) =
      '"' :: (v ++ ['"']) := by
    rw [hdrop, jsTrim_cons_ws (by decide)]
    apply jsTrim_eq_self
    · intro c hc
      injection hc with hc
      subst hc
      decide
    · intro c hc
      rw [show ('"' :: (v ++ ['"'])) = ('"' :: v) ++ ['"'] by simp,
        List.getLast?_append] at hc
      injection hc with hc
      subst hc
      decide
  have h4 : ¬(jsTrim ((jsTrim (scalarLine key v)).drop (key.length + 1))).isEmpty = true := by
    rw [hafter]
    simp
  rw [parseLinesAux_scalar fields (scalarLine key v) rest key.length h1 h2 h3 h4,
    htake, hkeytrim, hafter]
  rw [show ('"' :: (v ++ ['"'])) = '"' :: v ++ ['"'] by simp, stripQuotes_quoted]

theorem itemLine_shape (x : Str) :
    itemLine x = ' ' :: ' ' :: '-' :: ' ' :: '"' :: (x ++ ['"']) := by
  simp [itemLine, ofS]

/-- The item loop consumes exactly the rendered item lines. -/
theorem takeItems_itemLines (items : List Str) :
    takeItems (items.map itemLine) = (items, []) := by
  induction items with
  | nil => rfl
  | cons x xs ih =>
    rw [List.map_cons]
    unfold takeItems
    have htr : jsTrim (itemLine x) = '-' :: ' ' :: '"' :: (x ++ ['"']) := by
      rw [itemLine_shape, jsTrim_cons_ws (by decide), jsTrim_cons_ws (by decide)]
      apply jsTrim_eq_self
      · intro c hc
        injection hc with hc
        subst hc
        decide
      · intro c hc
        rw [show ('-' :: ' ' :: '"' :: (x ++ ['"'])) = ('-' :: ' ' :: '"' :: x) ++ ['"']
            by simp, List.getLast?_append] at hc
        injection hc with hc
        subst hc
        decide
    rw [htr]
    have hsw : jsStartsWith (ofS "- ") ('-' :: ' ' :: '"' :: (x ++ ['"'])) = true := by
      simp [jsStartsWith, ofS, List.isPrefixOf]
    rw [if_pos hsw, ih]
    have hdrop : ('-' :: ' ' :: '"' :: (x ++ ['"'])).drop 2 = '"' :: (x ++ ['"']) := rfl
    rw [hdrop, show ('"' :: (x ++ ['"'])) = '"' :: x ++ ['"'] by simp, stripQuotes_quoted]

/-- Parsing a rendered list block at the end of the body: it binds `key`
to the item list. -/
theorem parse_list_block (fields : ObjMap) (key : Str) (items : List Str)
    (hitems : items ≠ [])
    (hh : key.head?.map Char.isWhitespace = some false)
    (hl : key.getLast?.map Char.isWhitespace = some false)
    (hcol : ':' ∉ key) :
    parseLinesAux fields ((key ++ [':']) :: items.map itemLine) =
      setKey fields key (JSVal.arr items) := by
  have hne := key_ne_nil_of_head hh
  have hkeytrim : jsTrim key = key := jsTrim_eq_self (map_head?_ws hh) (map_getLast?_ws hl)
  have htrim : jsTrim (key ++ [':']) = key ++ [':'] := by
    apply jsTrim_eq_self
    · intro c hc
      rw [head?_append_left hne] at hc
      exact map_head?_ws hh c hc
    · intro c hc
      rw [List.getLast?_append] at hc
      injection hc with hc
      subst hc
      decide
  have h1 : ¬(jsTrim (key ++ [':'])).isEmpty = true := by
    rw [htrim]
    cases key with
    | nil => exact absurd rfl hne
    | cons a t => simp
  have h2 : jsIndexOf ':' (jsTrim (key ++ [':'])) = some key.length := by
    rw [htrim]
    exact jsIndexOf_append_cons hcol
  have htake : (jsTrim (key ++ [':'])).take key.length = key := by
    rw [htrim, List.take_left]
  have h3 : ¬(jsTrim ((jsTrim (key ++ [':'])).take key.length)).isEmpty = true := by
    rw [htake, hkeytrim]
    cases key with
    | nil => exact absurd rfl hne
    | cons a t => simp
  have h4 : (jsTrim ((jsTrim (key ++ [':'])).drop (key.length + 1))).isEmpty = true := by
    rw [htrim, show key.length + 1 = (key ++ [':']).length by simp, List.drop_length]
    rfl
  have h5 : ¬(takeItems (items.map itemLine)).1.isEmpty = true := by
    rw [takeItems_itemLines]
    cases items with
    | nil => exact absurd rfl hitems
    | cons a t => simp
  rw [parseLinesAux_list fields (key ++ [':']) (items.map itemLine) key.length h1 h2 h3 h4 h5,
    htake, hkeytrim, takeItems_itemLines, parseLinesAux_nil]

theorem isPrefixOf_false_of_head_ne {p s : Str} {c : Char} (hp : p.head? = some c)
    (h : s.head? ≠ some c) : p.isPrefixOf s = false := by
  cases p with
  | nil => exact absurd hp (by simp)
  | cons a q =>
    cases s with
    | nil => rfl
    | cons b t =>
      injection hp with hp
      have hab : ¬(a == b) = true := fun hc =>
        h (by rw [List.head?_cons, ← beq_iff_eq.mp hc, hp])
      simp [List.isPrefixOf, hab]

theorem join_head_ne_dash (lines : List Str)
    (hhead : ∀ l ∈ lines, l.head? ≠ some '-') :
    ((joinLines lines) ++ '\n' :: endMark).head? ≠ some '-' := by
  cases lines with
  | nil =>
    intro hc
    injection hc with hc
    exact absurd hc (by decide)
  | cons l ls =>
    cases l with
    | nil =>
      cases ls with
      | nil =>
        intro hc
        injection hc with hc
        exact absurd hc (by decide)
      | cons m ms =>
        rw [joinLines_cons (by simp), List.nil_append]
        intro hc
        injection hc with hc
        exact absurd hc (by decide)
    | cons c t =>
      have hc := hhead (c :: t) (List.mem_cons_self _ _)
      cases ls with
      | nil =>
        rw [show joinLines [c :: t] = c :: t from rfl]
        intro hcc
        injection hcc with hcc
        exact hc (by rw [List.head?_cons, hcc])
      | cons m ms =>
        rw [joinLines_cons (by simp)]
        intro hcc
        rw [show ((c :: t ++ '\n' :: joinLines (m :: ms)) ++ '\n' :: endMark).head? = some c
          from rfl] at hcc
        injection hcc with hcc
        exact hc (by rw [List.head?_cons, hcc])

theorem noP2_join (lines : List Str) (hnl : ∀ l ∈ lines, '\n' ∉ l)
    (hhead : ∀ l ∈ lines, l.head? ≠ some '-') :
    ∀ j, j < (joinLines lines).length →
      ('\n' :: endMark).isPrefixOf ((joinLines lines).drop j ++ '\n' :: endMark) = false := by
  induction lines with
  | nil =>
    intro j hj
    simp [joinLines] at hj
  | cons l ls ih =>
    cases ls with
    | nil =>
      intro j hj
      rw [show joinLines [l] = l from rfl] at hj ⊢
      apply isPrefixOf_false_of_head_ne (List.head?_cons)
      rw [head?_append_left (by rw [ne_eq, List.drop_eq_nil_iff]; omega)]
      intro hc
      exact hnl l (List.mem_cons_self _ _)
        (List.mem_of_mem_drop (List.mem_of_mem_head? hc))
    | cons m ms =>
      intro j hj
      rw [joinLines_cons (by simp)] at hj ⊢
      rcases Nat.lt_trichotomy j l.length with hlt | heq | hgt
      · rw [List.drop_append_of_le_length (by omega)]
        apply isPrefixOf_false_of_head_ne (List.head?_cons)
        rw [List.append_assoc,
          head?_append_left (by rw [ne_eq, List.drop_eq_nil_iff]; omega)]
        intro hc
        exact hnl l (List.mem_cons_self _ _)
          (List.mem_of_mem_drop (List.mem_of_mem_head? hc))
      · subst heq
        rw [List.drop_left, List.cons_append]
        rw [show List.isPrefixOf ('\n' :: endMark)
            ('\n' :: (joinLines (m :: ms) ++ '\n' :: endMark)) =
            (('\n' : Char) == '\n' && endMark.isPrefixOf
              (joinLines (m :: ms) ++ '\n' :: endMark)) from rfl]
        rw [isPrefixOf_false_of_head_ne (show endMark.head? = some '-' from rfl)
          (join_head_ne_dash (m :: ms) (fun l' hl' => hhead l' (List.mem_cons_of_mem _ hl')))]
        rfl
      · obtain ⟨j', rfl⟩ : ∃ j', j = l.length + 1 + j' := ⟨j - l.length - 1, by omega⟩
        have hdrop : (l ++ '\n' :: joinLines (m :: ms)).drop (l.length + 1 + j') =
            (joinLines (m :: ms)).drop j' := by
          rw [show l.length + 1 + j' = l.length + (1 + j') by omega,
            ← List.drop_drop, List.drop_left, show 1 + j' = j' + 1 by omega,
            List.drop_succ_cons]
        rw [hdrop]
        apply ih (fun l' hl' => hnl l' (List.mem_cons_of_mem _ hl'))
          (fun l' hl' => hhead l' (List.mem_cons_of_mem _ hl'))
        rw [List.length_append, List.length_cons] at hj
        omega

/-- `extractBlock` on a rendered block recovers exactly the body. -/
theorem extractBlock_wrap (bodyLines : List Str)
    (hnl : ∀ l ∈ bodyLines, '\n' ∉ l)
    (hhead : ∀ l ∈ bodyLines, l.head? ≠ some '-') :
    extractBlock ((beginMark ++ ['\n']) ++ (joinLines bodyLines ++ '\n' :: endMark)) =
      some { raw := (beginMark ++ ['\n']) ++ (joinLines bodyLines ++ '\n' :: endMark)
             body := joinLines bodyLines } := by
  unfold extractBlock
  rw [firstOcc_of_isPrefixOf (isPrefixOf_append_self _ _)]
  dsimp only
  rw [Nat.zero_add, List.drop_left,
    firstOcc_append_right (List.isPrefixOf_iff_prefix.mpr (List.prefix_refl _))
      (noP2_join bodyLines hnl hhead)]
  dsimp only
  rw [List.drop_zero, List.take_left,
    List.take_of_length_le (by
      rw [List.length_append, List.length_append, List.length_append, List.length_cons]
      omega)]

/-- Counterexample to C1 as stated: the field map `{foo: "bar"}` is an
output of `parseBlock`, but round-tripping it through `formatStamp` and
`parseZG` loses the key `foo` entirely (and invents `encoding` and
`version`), so the result is not field-equivalent. -/
theorem roundtrip_drops_unknown_keys :
    parseBlock (ofS "foo: \"bar\"") = [(ofS "foo", JSVal.str (ofS "bar"))] ∧
    (parseZG (formatStamp [(ofS "foo", JSVal.str (ofS "bar"))] (ofS "0.1"))).map
        (fun r => get r.fields (ofS "foo")) = some none := by
  constructor
  · rw [parseBlock_eval]
    decide
  · have hext : extractBlock (formatStamp [(ofS "foo", JSVal.str (ofS "bar"))] (ofS "0.1")) =
        some { raw := ofS "---BEGIN ZERO GRAVITY---\nencoding: \"zero-gravity\"\nversion: \"0.1\"\n---END ZERO GRAVITY---"
               body := ofS "encoding: \"zero-gravity\"\nversion: \"0.1\"" } := by
      decide
    unfold parseZG
    rw [hext]
    dsimp only
    rw [Option.map_some']
    dsimp only
    rw [parseBlock_eval]
    decide

/-- C1 (amended: the round trip holds for the stamp-shaped field maps —
keys among the five stamp keys, `encoding = "zero-gravity"`,
`version = "0.1"`, `title`/`intent` absent or non-empty newline-free
strings, `indexes` absent or a non-empty list of newline-free strings;
unrestricted `parseBlock` outputs are not round-tripped, see the
counterexample).  For such `F`, `parseZG (formatStamp F "0.1")` succeeds
and yields a field-equivalent map: the same keys bound to the same
values, list contents and order included. -/
theorem parseZG_formatStamp_roundtrip (F : ObjMap)
    (_hex : ∃ body0, F = parseBlock body0)
    (hkeys : ∀ k, get F k ≠ none →
      k ∈ [ofS "encoding", ofS "version", ofS "title", ofS "intent", ofS "indexes"])
    (henc : get F (ofS "encoding") = some (JSVal.str (ofS "zero-gravity")))
    (hver : get F (ofS "version") = some (JSVal.str (ofS "0.1")))
    (htit : get F (ofS "title") = none ∨
      ∃ t, get F (ofS "title") = some (JSVal.str t) ∧ t ≠ [] ∧ '\n' ∉ t)
    (hint : get F (ofS "intent") = none ∨
      ∃ t, get F (ofS "intent") = some (JSVal.str t) ∧ t ≠ [] ∧ '\n' ∉ t)
    (hidx : get F (ofS "indexes") = none ∨
      ∃ l, get F (ofS "indexes") = some (JSVal.arr l) ∧ l ≠ [] ∧ ∀ x ∈ l, '\n' ∉ x) :
    ∃ r, parseZG (formatStamp F (ofS "0.1")) = some r ∧
      ∀ k, get r.fields k = get F k := by
  clear _hex
  -- the optional title segment
  obtain ⟨T, updT, hTeq, hTfacts, hTstep, hTget⟩ :
      ∃ (T : List Str) (updT : ObjMap → ObjMap),
        (if truthyO (get F (ofS "title")) then
          [scalarLine (ofS "title") (jsToStringO (get F (ofS "title")))] else []) = T ∧
        (∀ l ∈ T, '\n' ∉ l ∧ l.head? ≠ some '-') ∧
        (∀ fields rest, parseLinesAux fields (T ++ rest) = parseLinesAux (updT fields) rest) ∧
        (∀ m k, get (updT m) k =
          if k = ofS "title" then (get F (ofS "title")).or (get m k) else get m k) := by
    rcases htit with hnone | ⟨t, hg, htne, htnl⟩
    · refine ⟨[], id, by rw [hnone]; rfl, by simp, fun fields rest => rfl, fun m k => ?_⟩
      rw [hnone]
      by_cases h : k = ofS "title" <;> simp [h]
    · refine ⟨[scalarLine (ofS "title") t], fun m => setKey m (ofS "title") (JSVal.str t),
        ?_, ?_, ?_, ?_⟩
      · rw [hg, if_pos (by simp [truthyO, JSVal.truthy, htne])]
        rfl
      · intro l hl
        rw [List.mem_singleton] at hl
        subst hl
        refine ⟨newline_not_mem_scalarLine (by decide) htnl, ?_⟩
        rw [scalarLine_shape1, head?_append_left (by decide)]
        decide
      · intro fields rest
        rw [List.singleton_append]
        exact parse_scalar_line fields (ofS "title") t rest (by decide) (by decide) (by decide)
      · intro m k
        rw [hg, get_setKey]
        by_cases h : k = ofS "title"
        · rw [if_pos h, if_pos h, Option.or_some]
        · rw [if_neg h, if_neg h]
  -- the optional intent segment
  obtain ⟨I, updI, hIeq, hIfacts, hIstep, hIget⟩ :
      ∃ (I : List Str) (updI : ObjMap → ObjMap),
        (if truthyO (get F (ofS "intent")) then
          [scalarLine (ofS "intent") (jsToStringO (get F (ofS "intent")))] else []) = I ∧
        (∀ l ∈ I, '\n' ∉ l ∧ l.head? ≠ some '-') ∧
        (∀ fields rest, parseLinesAux fields (I ++ rest) = parseLinesAux (updI fields) rest) ∧
        (∀ m k, get (updI m) k =
          if k = ofS "intent" then (get F (ofS "intent")).or (get m k) else get m k) := by
    rcases hint with hnone | ⟨t, hg, htne, htnl⟩
    · refine ⟨[], id, by rw [hnone]; rfl, by simp, fun fields rest => rfl, fun m k => ?_⟩
      rw [hnone]
      by_cases h : k = ofS "intent" <;> simp [h]
    · refine ⟨[scalarLine (ofS "intent") t], fun m => setKey m (ofS "intent") (JSVal.str t),
        ?_, ?_, ?_, ?_⟩
      · rw [hg, if_pos (by simp [truthyO, JSVal.truthy, htne])]
        rfl
      · intro l hl
        rw [List.mem_singleton] at hl
        subst hl
        refine ⟨newline_not_mem_scalarLine (by decide) htnl, ?_⟩
        rw [scalarLine_shape1, head?_append_left (by decide)]
        decide
      · intro fields rest
        rw [List.singleton_append]
        exact parse_scalar_line fields (ofS "intent") t rest (by decide) (by decide) (by decide)
      · intro m k
        rw [hg, get_setKey]
        by_cases h : k = ofS "intent"
        · rw [if_pos h, if_pos h, Option.or_some]
        · rw [if_neg h, if_neg h]
  -- the optional indexes segment (always last)
  obtain ⟨X, updX, hXeq, hXfacts, hXstep, hXget⟩ :
      ∃ (X : List Str) (updX : ObjMap → ObjMap),
        (match get F (ofS "indexes") with
          | some (JSVal.arr l) =>
            if l.length > 0 then (ofS "indexes:") :: l.map itemLine else []
          | _ => []) = X ∧
        (∀ l ∈ X, '\n' ∉ l ∧ l.head? ≠ some '-') ∧
        (∀ fields, parseLinesAux fields X = updX fields) ∧
        (∀ m k, get (updX m) k =
          if k = ofS "indexes" then (get F (ofS "indexes")).or (get m k) else get m k) := by
    rcases hidx with hnone | ⟨l, hg, hlne, hlnl⟩
    · refine ⟨[], id, by rw [hnone], by simp, parseLinesAux_nil, fun m k => ?_⟩
      rw [hnone]
      by_cases h : k = ofS "indexes" <;> simp [h]
    · refine ⟨(ofS "indexes" ++ [':']) :: l.map itemLine,
        fun m => setKey m (ofS "indexes") (JSVal.arr l), ?_, ?_, ?_, ?_⟩
      · rw [hg]
        dsimp only
        rw [if_pos (by cases l with | nil => exact absurd rfl hlne | cons a t => simp)]
        rw [show (ofS "indexes:") = ofS "indexes" ++ [':'] from by decide]
      · intro ln hln
        rcases List.mem_cons.mp hln with h | h
        · subst h
          exact ⟨by decide, by decide⟩
        · obtain ⟨x, hxm, hxe⟩ := List.mem_map.mp h
          subst hxe
          refine ⟨newline_not_mem_itemLine (hlnl x hxm), ?_⟩
          rw [itemLine_shape]
          intro hc
          injection hc with hc
          exact absurd hc (by decide)
      · intro fields
        exact parse_list_block fields (ofS "indexes") l hlne (by decide) (by decide) (by decide)
      · intro m k
        rw [hg, get_setKey]
        by_cases h : k = ofS "indexes"
        · rw [if_pos h, if_pos h, Option.or_some]
        · rw [if_neg h, if_neg h]
  -- the rendered lines
  have hlines : formatStampLines F (ofS "0.1") =
      beginMark :: ((ofS "encoding: \"zero-gravity\"" ::
        scalarLine (ofS "version") (ofS "0.1") :: (T ++ I ++ X)) ++ [endMark]) := by
    unfold formatStampLines
    rw [hTeq, hIeq, hXeq]
    simp [List.append_assoc]
  have hBLne : (ofS "encoding: \"zero-gravity\"" ::
      scalarLine (ofS "version") (ofS "0.1") :: (T ++ I ++ X)) ≠ [] := by simp
  have hBLfacts : ∀ l ∈ (ofS "encoding: \"zero-gravity\"" ::
      scalarLine (ofS "version") (ofS "0.1") :: (T ++ I ++ X)),
      '\n' ∉ l ∧ l.head? ≠ some '-' := by
    intro l hl
    rcases List.mem_cons.mp hl with h | h
    · subst h
      exact ⟨by decide, by decide⟩
    · rcases List.mem_cons.mp h with h | h
      · subst h
        exact ⟨by decide, by decide⟩
      · rcases List.mem_append.mp h with h | h
        · rcases List.mem_append.mp h with h | h
          · exact hTfacts l h
          · exact hIfacts l h
        · exact hXfacts l h
  -- the rendered text and its extraction
  have htext : formatStamp F (ofS "0.1") =
      (beginMark ++ ['\n']) ++
        (joinLines (ofS "encoding: \"zero-gravity\"" ::
          scalarLine (ofS "version") (ofS "0.1") :: (T ++ I ++ X)) ++ '\n' :: endMark) := by
    unfold formatStamp
    rw [hlines, joinLines_cons (by simp), joinLines_append_single _ _ hBLne]
    simp
  have hext : extractBlock (formatStamp F (ofS "0.1")) =
      some { raw := (beginMark ++ ['\n']) ++
          (joinLines (ofS "encoding: \"zero-gravity\"" ::
            scalarLine (ofS "version") (ofS "0.1") :: (T ++ I ++ X)) ++ '\n' :: endMark)
             body := joinLines (ofS "encoding: \"zero-gravity\"" ::
          scalarLine (ofS "version") (ofS "0.1") :: (T ++ I ++ X)) } := by
    rw [htext]
    exact extractBlock_wrap _ (fun l hl => (hBLfacts l hl).1) (fun l hl => (hBLfacts l hl).2)
  -- parsing the body back
  have hparse : parseBlock (joinLines (ofS "encoding: \"zero-gravity\"" ::
      scalarLine (ofS "version") (ofS "0.1") :: (T ++ I ++ X))) =
      updX (updI (updT (setKey (setKey [] (ofS "encoding")
        (JSVal.str (ofS "zero-gravity"))) (ofS "version") (JSVal.str (ofS "0.1"))))) := by
    unfold parseBlock
    rw [splitLines_joinLines hBLne (fun l hl => (hBLfacts l hl).1)]
    rw [show (ofS "encoding: \"zero-gravity\"") =
      scalarLine (ofS "encoding") (ofS "zero-gravity") from by decide]
    rw [parse_scalar_line _ (ofS "encoding") (ofS "zero-gravity") _
      (by decide) (by decide) (by decide)]
    rw [parse_scalar_line _ (ofS "version") (ofS "0.1") _
      (by decide) (by decide) (by decide)]
    rw [List.append_assoc, hTstep, hIstep, hXstep]
  -- the final map agrees with F on every key
  have hM : ∀ k, get (updX (updI (updT (setKey (setKey [] (ofS "encoding")
      (JSVal.str (ofS "zero-gravity"))) (ofS "version") (JSVal.str (ofS "0.1")))))) k =
      get F k := by
    intro k
    rw [hXget, hIget, hTget, get_setKey, get_setKey]
    by_cases h1 : k = ofS "indexes"
    · subst h1
      rw [if_pos rfl, if_neg (by decide), if_neg (by decide), if_neg (by decide),
        if_neg (by decide), get_nil, Option.or_none]
    · rw [if_neg h1]
      by_cases h2 : k = ofS "intent"
      · subst h2
        rw [if_pos rfl, if_neg (by decide), if_neg (by decide), if_neg (by decide),
          get_nil, Option.or_none]
      · rw [if_neg h2]
        by_cases h3 : k = ofS "title"
        · subst h3
          rw [if_pos rfl, if_neg (by decide), if_neg (by decide), get_nil, Option.or_none]
        · rw [if_neg h3]
          by_cases h4 : k = ofS "version"
          · subst h4
            rw [if_pos rfl, hver]
          · rw [if_neg h4]
            by_cases h5 : k = ofS "encoding"
            · subst h5
              rw [if_pos rfl, henc]
            · rw [if_neg h5, get_nil]
              by_contra hc
              have := hkeys k (fun hn => hc hn.symm)
              simp only [List.mem_cons, List.not_mem_nil, or_false] at this
              rcases this with h | h | h | h | h
              · exact h5 h
              · exact h4 h
              · exact h3 h
              · exact h2 h
              · exact h1 h
  -- assemble
  unfold parseZG
  rw [hext]
  dsimp only
  refine ⟨_, rfl, fun k => ?_⟩
  dsimp only
  rw [hparse]
  exact hM k

theorem get_ne_none_mem_keys {m : ObjMap} {k : Str} (h : get m k ≠ none) :
    k ∈ m.map Prod.fst := by
  unfold get at h
  rcases hf : m.find? (fun p => p.1 = k) with _ | p
  · rw [hf] at h
    exact absurd rfl h
  · have hm := List.mem_of_find?_eq_some hf
    have hp := List.find?_some hf
    simp only [decide_eq_true_eq] at hp
    rw [← hp]
    exact List.mem_map_of_mem Prod.fst hm

/-- Witness for the amended C1 at the spec's end-to-end example map. -/
theorem parseZG_formatStamp_roundtrip_witness :
    ∃ r, parseZG (formatStamp [(ofS "encoding", JSVal.str (ofS "zero-gravity")),
        (ofS "version", JSVal.str (ofS "0.1")), (ofS "title", JSVal.str (ofS "Test")),
        (ofS "intent", JSVal.str (ofS "proposal")),
        (ofS "indexes", JSVal.arr [ofS "alpha", ofS "beta"])] (ofS "0.1")) = some r ∧
      ∀ k, get r.fields k =
        get [(ofS "encoding", JSVal.str (ofS "zero-gravity")),
          (ofS "version", JSVal.str (ofS "0.1")), (ofS "title", JSVal.str (ofS "Test")),
          (ofS "intent", JSVal.str (ofS "proposal")),
          (ofS "indexes", JSVal.arr [ofS "alpha", ofS "beta"])] k := by
  apply parseZG_formatStamp_roundtrip
  · refine ⟨ofS "encoding: \"zero-gravity\"\nversion: \"0.1\"\ntitle: \"Test\"\nintent: \"proposal\"\nindexes:\n  - \"alpha\"\n  - \"beta\"", ?_⟩
    rw [parseBlock_eval]
    decide
  · intro k hk
    have := get_ne_none_mem_keys hk
    simpa using this
  · decide
  · decide
  · exact Or.inr ⟨ofS "Test", by decide, by decide, by decide⟩
  · exact Or.inr ⟨ofS "proposal", by decide, by decide, by decide⟩
  · exact Or.inr ⟨[ofS "alpha", ofS "beta"], by decide, by decide, by decide⟩

end ZeroGravity
